import Mathlib

set_option maxHeartbeats 1000000
set_option autoImplicit false

/-!
Verification of the Review Board nested-action registry
(`reviewboard/actions`): a shallow embedding of the registry
(`registry.py`), the base action rendering contract (`base.py`) and the
child-action render pipeline (`templatetags/actions.py`), with proofs of
the specified properties.

Conventions of the embedding:

* Python exceptions are modelled with `Except`; because a Python
  exception leaves the (in-place mutated) registry object visible to the
  caller, the error value carries the registry state at the moment the
  exception escapes, so atomicity statements are meaningful.
* The `OrderedDict` `_children` and the `dict` `_parents` are modelled
  as insertion-ordered association lists.
* The base registry class (`djblets` `Registry` /
  `reviewboard.registries.registry.OrderedRegistry`) is not part of the
  examined sources; its operations are modelled from the specification
  (see the `base*` definitions below).
-/

namespace RB

/-- An action: the registry-relevant attributes of
`reviewboard.actions.base.BaseAction` (`action_id`, `label`, `url`,
`hidden`). -/
structure Action where
  action_id : String
  label : String
  url : String := "#"
  hidden : Bool := false
deriving DecidableEq, Repr

/-- The kinds of exception raised by the registry code: the
`ALREADY_REGISTERED` / `NOT_REGISTERED` / `PARENT_NOT_FOUND` /
`PARENT_IS_CHILD` registry errors, `DepthLimitExceededError`, and the raw
`KeyError` / `ValueError` / `AttributeError` that built-in `dict` / `list`
operations can raise. -/
inductive RegistryError where
  | alreadyRegistered (action_id : String)
  | notRegistered (action_id : String)
  | depthLimitExceeded (action_id : String)
  | parentNotFound (parent_id : String)
  | parentIsChild (parent_id : String)
  | keyError (key : String)
  | valueError (value : String)
  | attributeError
deriving DecidableEq, Repr

/-- The Python exception class of each error: `lookup_error_class` is
`KeyError` (registry.py line 46), `DepthLimitExceededError` subclasses
`ValueError` (errors.py line 6), `PARENT_IS_CHILD` is raised as a
`ValueError` (registry.py line 185). -/
inductive PyExnClass where
  | keyError
  | valueError
  | alreadyRegisteredError
  | attributeError
deriving DecidableEq, Repr

def RegistryError.pyClass : RegistryError → PyExnClass
  | .alreadyRegistered _ => .alreadyRegisteredError
  | .notRegistered _ => .keyError
  | .depthLimitExceeded _ => .valueError
  | .parentNotFound _ => .keyError
  | .parentIsChild _ => .valueError
  | .keyError _ => .keyError
  | .valueError _ => .valueError
  | .attributeError => .attributeError

def RegistryError.isAlreadyRegistered : RegistryError → Bool
  | .alreadyRegistered _ => true
  | _ => false

/-- One entry of a registry's static default list (`get_defaults`):
either a bare action or a `(parent, children)` group (registry.py
lines 199-212). -/
inductive DefaultEntry where
  | single (action : Action)
  | group (parent : Action) (children : List Action)
deriving DecidableEq, Repr

/-- The state of an `ActionRegistry`: the ordered id-to-action mapping of
the base registry, the `_children` ordered mapping from top-level action
ids to their children's ids, the `_parents` mapping from child ids to
parent ids, the populated flag, and the static default list returned by
`get_defaults`. -/
structure ActionRegistry where
  items : List Action := []
  children : List (String × List String) := []
  parents : List (String × String) := []
  populated : Bool := false
  defaults : List DefaultEntry := []
deriving DecidableEq, Repr

/-- Result type of a registry operation: on error the registry state at
the moment the exception escapes is returned alongside the error. -/
abbrev RegResult (α : Type) := Except (RegistryError × ActionRegistry) α

/-- Python truthiness of the optional `parent_id` argument: `None` and
the empty string are falsy (the `if parent_id:` guards in registry.py
lines 103 and 114). -/
def pyTruthy : Option String → Bool
  | none => false
  | some s => !(s == "")

/-- First value bound to a key in an association list (Python `dict`
lookup). -/
def alookup {α : Type} : List (String × α) → String → Option α
  | [], _ => none
  | e :: t, k => if e.1 = k then some e.2 else alookup t k

/-- Rewrite every binding of a key in an association list with `f`
(in-place mutation of the stored value, preserving insertion order). -/
def amod {α : Type} (l : List (String × α)) (k : String) (f : α → α) :
    List (String × α) :=
  l.map (fun e => if e.1 = k then (e.1, f e.2) else e)

/-- Drop every binding of a key from an association list (Python
`del d[k]`, order of the remaining bindings preserved). -/
def aerase {α : Type} (l : List (String × α)) (k : String) :
    List (String × α) :=
  l.filter (fun e => e.1 != k)

/-- Python `d[k] = v` on a `dict`: overwrite in place when the key is
present, append otherwise. -/
def dinsert (l : List (String × String)) (k v : String) :
    List (String × String) :=
  if (alookup l k).isSome then amod l k (fun _ => v) else l ++ [(k, v)]

/-- Python `list.remove`: drop the first occurrence of an element. -/
def removeFirst : List String → String → List String
  | [], _ => []
  | x :: t, k => if x = k then t else x :: removeFirst t k

/-- Lookup of the registered action with a given `action_id` in the
ordered id-to-action mapping. -/
def findAction : List Action → String → Option Action
  | [], _ => none
  | a :: t, k => if a.action_id = k then some a else findAction t k

/-- `ActionRegistry.get_action` (registry.py lines 62-73): return the
action with the given id, or `none` if it is not registered. -/
def ActionRegistry.get_action (reg : ActionRegistry) (action_id : String) :
    Option Action :=
  findAction reg.items action_id

/-- Modelled from the spec: the base `OrderedRegistry.register` (djblets
registry machinery, not part of the examined sources) "fails with
`AlreadyRegistered` if `action_id` already present (global uniqueness,
checked before any index mutation, so failure is atomic — no partial
state)"; on success the action is appended to the ordered id-to-action
mapping. -/
def ActionRegistry.baseRegister (reg : ActionRegistry) (action : Action) :
    RegResult ActionRegistry :=
  if (reg.get_action action.action_id).isSome then
    .error (.alreadyRegistered action.action_id, reg)
  else
    .ok { reg with items := reg.items ++ [action] }

/-- `ActionRegistry.register` (registry.py lines 75-118): check the
parent (when `parent_id` is truthy), delegate to the base registration,
then update the `_children` / `_parents` indexes. -/
def ActionRegistry.register (reg : ActionRegistry) (action : Action)
    (parent_id : Option String) : RegResult ActionRegistry :=
  if pyTruthy parent_id then
    let p := parent_id.getD ""
    if (reg.get_action p).isNone then
      .error (.notRegistered p, reg)
    else if (alookup reg.children p).isNone then
      .error (.depthLimitExceeded action.action_id, reg)
    else
      match reg.baseRegister action with
      | .error e => .error e
      | .ok reg2 =>
        .ok { reg2 with
              children := amod reg2.children p (fun l => l ++ [action.action_id]),
              parents := dinsert reg2.parents action.action_id p }
  else
    match reg.baseRegister action with
    | .error e => .error e
    | .ok reg2 =>
      .ok { reg2 with children := reg2.children ++ [(action.action_id, [])] }

/-- Modelled from the spec: the base `unregister` (djblets registry
machinery, not part of the examined sources) "fails with `NotFound` if
absent"; on success the action is removed from the id-to-action
mapping. -/
def ActionRegistry.baseUnregister (reg : ActionRegistry) (action : Action) :
    RegResult ActionRegistry :=
  if (reg.get_action action.action_id).isSome then
    .ok { reg with
          items := reg.items.filter (fun b => b.action_id != action.action_id) }
  else
    .error (.notRegistered action.action_id, reg)

/-- The loop `for child_id in list(child_ids): self.unregister_by_attr(
'action_id', child_id)` (registry.py lines 138-139), parameterised by
the (virtually dispatched) `unregister` used on each child: each child id
is looked up and unregistered in turn. -/
def ActionRegistry.unregisterIdsWith
    (unreg : ActionRegistry → Action → RegResult ActionRegistry) :
    List String → ActionRegistry → RegResult ActionRegistry
  | [], reg => .ok reg
  | child_id :: rest, reg =>
    match reg.get_action child_id with
    | none => .error (.notRegistered child_id, reg)
    | some a =>
      match unreg reg a with
      | .error e => .error e
      | .ok reg1 => ActionRegistry.unregisterIdsWith unreg rest reg1

/-- `ActionRegistry.unregister` (registry.py lines 120-146), with a fuel
argument standing in for Python's call stack: base unregistration, then
either the cascading removal of all children (parent case) or the removal
of the parent association (child case).  The fuel only limits the
recursion depth; the wrapper `ActionRegistry.unregister` supplies more
fuel than any execution can consume, since every recursive call first
removes one item from the mapping. -/
def ActionRegistry.unregisterFuel :
    Nat → ActionRegistry → Action → RegResult ActionRegistry
  | 0, reg, action => .error (.keyError action.action_id, reg)
  | fuel + 1, reg, action =>
    match reg.baseUnregister action with
    | .error e => .error e
    | .ok reg1 =>
      match alookup reg1.children action.action_id with
      | some child_ids =>
        match ActionRegistry.unregisterIdsWith
            (ActionRegistry.unregisterFuel fuel) child_ids reg1 with
        | .error e => .error e
        | .ok reg2 =>
          .ok { reg2 with children := aerase reg2.children action.action_id }
      | none =>
        match alookup reg1.parents action.action_id with
        | none => .error (.keyError action.action_id, reg1)
        | some pid =>
          let reg2 := { reg1 with parents := aerase reg1.parents action.action_id }
          match alookup reg2.children pid with
          | none => .error (.keyError pid, reg2)
          | some l =>
            if action.action_id ∈ l then
              .ok { reg2 with
                    children := amod reg2.children pid
                      (fun l0 => removeFirst l0 action.action_id) }
            else
              .error (.valueError action.action_id, reg2)

/-- `ActionRegistry.unregister`: the public entry point, with enough fuel
for any execution (each recursive call removes at least one of the
`reg.items` first). -/
def ActionRegistry.unregister (reg : ActionRegistry) (action : Action) :
    RegResult ActionRegistry :=
  ActionRegistry.unregisterFuel (reg.items.length + 1) reg action

/-- The inner loop of `populate` registering the children of a
`(parent, children)` default group (registry.py lines 207-208). -/
def ActionRegistry.registerChildList (pid : String) :
    List Action → ActionRegistry → RegResult ActionRegistry
  | [], reg => .ok reg
  | c :: rest, reg =>
    match reg.register c (some pid) with
    | .error e => .error e
    | .ok reg1 => ActionRegistry.registerChildList pid rest reg1

/-- The loop of `populate` over the default entries (registry.py
lines 199-212): a tuple registers the parent then its children under the
parent's id; a bare entry registers a standalone action. -/
def ActionRegistry.populateDefaults :
    List DefaultEntry → ActionRegistry → RegResult ActionRegistry
  | [], reg => .ok reg
  | .single a :: rest, reg =>
    match reg.register a none with
    | .error e => .error e
    | .ok reg1 => ActionRegistry.populateDefaults rest reg1
  | .group p cs :: rest, reg =>
    match reg.register p none with
    | .error e => .error e
    | .ok reg1 =>
      match ActionRegistry.registerChildList p.action_id cs reg1 with
      | .error e => .error e
      | .ok reg2 => ActionRegistry.populateDefaults rest reg2

/-- `ActionRegistry.populate` (registry.py lines 192-215): idempotent;
sets the populated flag first, then registers every default entry.  The
`registry_populating` signal is an external side effect with no registry
state change and is omitted. -/
def ActionRegistry.populate (reg : ActionRegistry) : RegResult ActionRegistry :=
  if reg.populated then .ok reg
  else ActionRegistry.populateDefaults reg.defaults { reg with populated := true }

/-- `ActionRegistry.get_root_actions` (registry.py lines 148-158):
trigger population, then yield `get_action` of each key of `_children`
in order.  The generator is modelled eagerly (materialised, as every
caller in the sources does). -/
def ActionRegistry.get_root_actions (reg : ActionRegistry) :
    RegResult (ActionRegistry × List (Option Action)) :=
  match reg.populate with
  | .error e => .error e
  | .ok reg1 => .ok (reg1, reg1.children.map (fun e => reg1.get_action e.1))

/-- `ActionRegistry.get_child_actions` (registry.py lines 160-190):
trigger population; `KeyError` (`PARENT_NOT_FOUND`) when the parent id
is not registered, `ValueError` (`PARENT_IS_CHILD`) when it is
registered but is not a key of `_children`; otherwise yield the children
in order. -/
def ActionRegistry.get_child_actions (reg : ActionRegistry)
    (parent_id : String) : RegResult (ActionRegistry × List (Option Action)) :=
  match reg.populate with
  | .error e => .error e
  | .ok reg1 =>
    if (reg1.get_action parent_id).isNone then
      .error (.parentNotFound parent_id, reg1)
    else
      match alookup reg1.children parent_id with
      | none => .error (.parentIsChild parent_id, reg1)
      | some l => .ok (reg1, l.map (fun c => reg1.get_action c))

/-- Modelled from the spec: the base registry `reset` (djblets registry
machinery, not part of the examined sources): "if previously populated
... clears the populated flag and the id→action mapping". -/
def ActionRegistry.baseReset (reg : ActionRegistry) : ActionRegistry :=
  if reg.populated then { reg with items := [], populated := false } else reg

/-- The loop `for root_action in list(self.get_root_actions()):
self.unregister(root_action)` (registry.py lines 222-223).  A `none`
yielded by `get_root_actions` would be `None` in Python and
`None.action_id` raises `AttributeError`. -/
def ActionRegistry.unregisterRoots :
    List (Option Action) → ActionRegistry → RegResult ActionRegistry
  | [], reg => .ok reg
  | some a :: rest, reg =>
    match reg.unregister a with
    | .error e => .error e
    | .ok reg1 => ActionRegistry.unregisterRoots rest reg1
  | none :: _, reg => .error (.attributeError, reg)

/-- `ActionRegistry.reset` (registry.py lines 217-225): when populated,
unregister every current root action (cascading), then run the base
reset. -/
def ActionRegistry.reset (reg : ActionRegistry) : RegResult ActionRegistry :=
  if reg.populated then
    match reg.get_root_actions with
    | .error e => .error e
    | .ok (reg1, roots) =>
      match ActionRegistry.unregisterRoots roots reg1 with
      | .error e => .error e
      | .ok reg2 => .ok reg2.baseReset
  else
    .ok reg.baseReset

/-- Sequentially apply a list of `register` calls (used to state the
ordering property over arbitrary successful registration sequences). -/
def ActionRegistry.registerAll :
    List (Action × Option String) → ActionRegistry → RegResult ActionRegistry
  | [], reg => .ok reg
  | (a, p) :: rest, reg =>
    match reg.register a p with
    | .error e => .error e
    | .ok reg1 => ActionRegistry.registerAll rest reg1

/-- The ids of the registered actions, in registration order. -/
def idsOf (reg : ActionRegistry) : List String :=
  reg.items.map Action.action_id

/-- The keys of the parent-to-children index (the root action ids), in
root-registration order. -/
def ckOf (reg : ActionRegistry) : List String :=
  reg.children.map Prod.fst

/-- The keys of the child-to-parent index (the child action ids). -/
def pkOf (reg : ActionRegistry) : List String :=
  reg.parents.map Prod.fst

/-- A fresh `ActionRegistry()` (registry.py lines 48-60): empty mapping
and indexes, unpopulated; the base class default list is empty. -/
def ActionRegistry.initial : ActionRegistry := {}

/-!  The rendering side (`base.py`, `templatetags/actions.py`). -/

mutual
/-- A value stored in a rendering context: the render-context entries are
strings, booleans, resolved child-action lists, or nested render-context
dictionaries. -/
inductive RVal where
  | str (s : String)
  | bool (b : Bool)
  | actionList (actions : List (Option Action))
  | dict (entries : List RentryT)

/-- One key-value entry of a render-context dictionary. -/
inductive RentryT where
  | mk (key : String) (value : RVal)
end

/-- A render-context dictionary (a list of key-value entries). -/
abbrev Rentry := String × RVal

/-- A `django.template.Context`: a stack of dictionaries.  The head of
`dicts` is the top of the stack (the most recently pushed scope). -/
structure TemplateContext where
  dicts : List (List Rentry)

/-- `Context.push`: push a new empty scope. -/
def ctxPush (c : TemplateContext) : TemplateContext :=
  { dicts := [] :: c.dicts }

/-- `Context.pop`: drop the top scope. -/
def ctxPop (c : TemplateContext) : TemplateContext :=
  { dicts := c.dicts.tail }

/-- `context[key] = value`: bind a key in the top scope. -/
def ctxSet (c : TemplateContext) (k : String) (v : RVal) : TemplateContext :=
  { dicts :=
      match c.dicts with
      | [] => [[(k, v)]]
      | top :: rest => ((k, v) :: top) :: rest }

/-- A Python exception escaping from an action method or from the
template engine. -/
structure PyExn where
  message : String
deriving DecidableEq, Repr

/-- The overridable per-request behaviour of a concrete action
(`BaseAction` subclass): `should_render` and `get_render_context` are the
user-overridable methods called by `render`; either may raise. -/
structure ActionBehavior where
  action_id : String := ""
  context_key : String := "action"
  template_name : String := "actions/action.html"
  should_render : TemplateContext → Except PyExn Bool
  get_render_context : TemplateContext → Except PyExn (List Rentry)

/-- `BaseAction.render` (base.py lines 144-155): if `should_render` is
falsy return `''` without touching the context; otherwise push a scope,
bind the render context under `context_key`, render the template, and pop
the scope again in a `finally` block on every exit path.  `tmpl` is the
external `render_to_string`; the result pairs the final context state
(which in Python survives an escaping exception) with the outcome. -/
def BaseAction.render (tmpl : String → TemplateContext → Except PyExn String)
    (a : ActionBehavior) (ctx : TemplateContext) :
    TemplateContext × Except PyExn String :=
  match a.should_render ctx with
  | .error e => (ctx, .error e)
  | .ok false => (ctx, .ok "")
  | .ok true =>
    let c1 := ctxPush ctx
    match a.get_render_context c1 with
    | .error e => (ctxPop c1, .error e)
    | .ok rc =>
      let c2 := ctxSet c1 a.context_key (RVal.dict (rc.map (fun e => RentryT.mk e.1 e.2)))
      match tmpl a.template_name c2 with
      | .error e => (ctxPop c2, .error e)
      | .ok s => (ctxPop c2, .ok s)

/-- `BaseAction.get_label` default (base.py lines 79-94): return the
static `label` attribute. -/
def BaseAction.get_label (a : Action) (_ctx : TemplateContext) : String :=
  a.label

/-- `BaseAction.get_url` default (base.py lines 96-110). -/
def BaseAction.get_url (a : Action) (_ctx : TemplateContext) : String :=
  a.url

/-- `BaseAction.get_hidden` default (base.py lines 112-126). -/
def BaseAction.get_hidden (a : Action) (_ctx : TemplateContext) : Bool :=
  a.hidden

/-- `BaseAction.get_render_context` (base.py lines 157-173): the
dictionary of fixed keys `id`, `label`, `url`, `hidden`, computed through
the getters. -/
def BaseAction.get_render_context (a : Action) (ctx : TemplateContext) :
    List Rentry :=
  [("id", RVal.str a.action_id),
   ("label", RVal.str (BaseAction.get_label a ctx)),
   ("url", RVal.str (BaseAction.get_url a ctx)),
   ("hidden", RVal.bool (BaseAction.get_hidden a ctx))]

/-- `BaseMenuAction.child_actions` (base.py lines 188-190): the property
queries the registry's `get_child_actions` with the menu's own id at
access time (never cached). -/
def BaseMenuAction.child_actions (reg : ActionRegistry) (a : Action) :
    RegResult (ActionRegistry × List (Option Action)) :=
  reg.get_child_actions a.action_id

/-- `BaseMenuAction.get_render_context` (base.py lines 192-195): the base
render context, extended with the key `child_actions` bound to
`list(self.child_actions)` — the children resolved live from the
registry. -/
def BaseMenuAction.get_render_context (reg : ActionRegistry) (a : Action)
    (ctx : TemplateContext) : RegResult (ActionRegistry × List Rentry) :=
  match BaseMenuAction.child_actions reg a with
  | .error e => .error e
  | .ok (reg1, kids) =>
    .ok (reg1,
      BaseAction.get_render_context a ctx ++ [("child_actions", RVal.actionList kids)])

/-- The loop of `render_child_actions` (templatetags/actions.py
lines 31-40): render each child independently, appending the markup on
success and swallowing (logging) the exception on failure. -/
def renderChildLoop (render_action : Action → Except PyExn String) :
    List Action → List String → List String
  | [], content => content
  | child :: rest, content =>
    match render_action child with
    | .ok s => renderChildLoop render_action rest (content ++ [s])
    | .error _ => renderChildLoop render_action rest content

/-- `render_child_actions` (templatetags/actions.py lines 16-41): the
concatenation of the successfully rendered children's markup; a child
whose render raises is caught and logged and does not stop its
siblings. -/
def render_child_actions (render_action : Action → Except PyExn String)
    (menu : List Action) : String :=
  String.join (renderChildLoop render_action menu [])

/-!  The registry well-formedness invariant and spec-side helpers. -/

/-- Well-formedness of a registry state (holds for every state reachable
by the public operations from a fresh registry): registered ids, root
index keys and child index keys are duplicate-free; every registered
action is a root or a child; no id is both a root and a child; index keys
are registered ids; the two indexes are converse relations; and every
child list is duplicate-free. -/
structure Inv (reg : ActionRegistry) : Prop where
  idsNodup : (idsOf reg).Nodup
  ckNodup : (ckOf reg).Nodup
  pkNodup : (pkOf reg).Nodup
  rootOrChild : ∀ a ∈ reg.items, a.action_id ∈ ckOf reg ∨ a.action_id ∈ pkOf reg
  notBoth : ∀ x ∈ ckOf reg, x ∉ pkOf reg
  ckReg : ∀ x ∈ ckOf reg, x ∈ idsOf reg
  pkReg : ∀ x ∈ pkOf reg, x ∈ idsOf reg
  childUp : ∀ e ∈ reg.parents, ∃ f ∈ reg.children, f.1 = e.2 ∧ e.1 ∈ f.2
  childDown : ∀ f ∈ reg.children, ∀ c ∈ f.2, (c, f.1) ∈ reg.parents
  childNodup : ∀ f ∈ reg.children, f.2.Nodup

/-- The state a successful root registration produces: the action is
appended to the mapping and gets a fresh empty child list. -/
def rootAdded (reg : ActionRegistry) (a : Action) : ActionRegistry :=
  { reg with
    items := reg.items ++ [a]
    children := reg.children ++ [(a.action_id, [])] }

/-- The state a successful child registration under parent `pp`
produces: the action is appended to the mapping, its id is appended to
the parent's child list, and the reverse link is recorded. -/
def childAdded (reg : ActionRegistry) (a : Action) (pp : String) :
    ActionRegistry :=
  { reg with
    items := reg.items ++ [a]
    children := amod reg.children pp (fun l => l ++ [a.action_id])
    parents := dinsert reg.parents a.action_id pp }

/-- The state after the base unregistration alone: the action with id
`cid` is dropped from the id-to-action mapping, the indexes untouched. -/
def itemsErased (reg : ActionRegistry) (cid : String) : ActionRegistry :=
  { reg with items := reg.items.filter (fun b => b.action_id != cid) }

/-- The state a successful unregistration of a child action with id
`cid` (whose parent is `pid`) produces: the child is dropped from the
mapping, its reverse link is dropped, and it is removed from its
parent's child list. -/
def childRemoved (reg : ActionRegistry) (cid pid : String) : ActionRegistry :=
  { reg with
    items := reg.items.filter (fun b => b.action_id != cid)
    parents := aerase reg.parents cid
    children := amod reg.children pid (fun l0 => removeFirst l0 cid) }

/-- The actions a sequence of `register` calls makes roots (calls whose
`parent_id` is falsy), in call order. -/
def opsRoots (ops : List (Action × Option String)) : List Action :=
  ops.filterMap (fun op => if pyTruthy op.2 then none else some op.1)

/-- The actions a sequence of `register` calls registers under the parent
id `pid`, in call order. -/
def opsChildrenOf (pid : String) (ops : List (Action × Option String)) :
    List Action :=
  ops.filterMap
    (fun op => if pyTruthy op.2 && (op.2.getD "" == pid) then some op.1 else none)

/-!  Concrete sample data for the scenario claims, the counterexamples
and the witnesses. -/

def closeAction : Action := { action_id := "close", label := "Close" }

def submitAction : Action := { action_id := "submit", label := "Submitted" }

def discardAction : Action := { action_id := "discard", label := "Discarded" }

def deleteAction : Action := { action_id := "delete", label := "Delete Permanently" }

/-- A registry whose static defaults are the `close` menu with children
`submit`, `discard`, `delete` (the scenario of the spec). -/
def closeMenuRegistry : ActionRegistry :=
  { defaults := [DefaultEntry.group closeAction
      [submitAction, discardAction, deleteAction]] }

/-- The `closeMenuRegistry` state after population. -/
def closePopulated : ActionRegistry :=
  { items := [closeAction, submitAction, discardAction, deleteAction],
    children := [("close", ["submit", "discard", "delete"])],
    parents := [("submit", "close"), ("discard", "close"), ("delete", "close")],
    populated := true,
    defaults := [DefaultEntry.group closeAction
      [submitAction, discardAction, deleteAction]] }

/-- The `closeMenuRegistry` state after population and `reset()`. -/
def closeReset : ActionRegistry :=
  { defaults := [DefaultEntry.group closeAction
      [submitAction, discardAction, deleteAction]] }

def mAct : Action := { action_id := "m", label := "Menu" }

def aAct : Action := { action_id := "a", label := "A" }

def bAct : Action := { action_id := "b", label := "B" }

def xAct : Action := { action_id := "x", label := "X" }

def yAct : Action := { action_id := "y", label := "Y" }

def zAct : Action := { action_id := "z", label := "Z" }

/-- An action that reuses the already-taken id `x`. -/
def dupXAct : Action := { action_id := "x", label := "Duplicate X" }

/-- A small populated registry: root menu `m` with children `a`, `b`. -/
def menuReg2 : ActionRegistry :=
  { items := [mAct, aAct, bAct],
    children := [("m", ["a", "b"])],
    parents := [("a", "m"), ("b", "m")],
    populated := true }

/-- A small registry with the single root `x`. -/
def xOnlyReg : ActionRegistry :=
  { items := [xAct], children := [("x", [])], populated := true }

/-- A sample rendering context (one base scope with one binding). -/
def ctx0 : TemplateContext :=
  { dicts := [[("comment", RVal.str "this is a comment")]] }

/-- A sample template engine that always succeeds. -/
def tmpl0 : String → TemplateContext → Except PyExn String :=
  fun _ _ => .ok "markup"

/-- A sample well-behaved action behaviour. -/
def okBehavior : ActionBehavior :=
  { action_id := "once",
    should_render := fun _ => .ok true,
    get_render_context := fun _ => .ok [("id", RVal.str "once")] }

/-- A sample behaviour whose `should_render` never allows rendering. -/
def neverBehavior : ActionBehavior :=
  { action_id := "never",
    should_render := fun _ => .ok false,
    get_render_context := fun _ => .ok [] }

/-- A sample behaviour whose `get_render_context` raises (the
`PoorlyCodedAction` of the unit tests, whose `get_label` raises inside
`get_render_context`). -/
def poorBehavior : ActionBehavior :=
  { action_id := "poor",
    should_render := fun _ => .ok true,
    get_render_context := fun _ => .error { message := "get_label failed" } }

/-- A sample per-child renderer in which the action with id `a` raises
and every other action renders its label. -/
def sampleRenderer : Action → Except PyExn String :=
  fun c =>
    if c.action_id == "a" then .error { message := "broken action" }
    else .ok c.label

/-- The render-context mapping the `close` menu produces against
`closePopulated`. -/
def closeMenuRenderContext : List Rentry :=
  [("id", RVal.str "close"), ("label", RVal.str "Close"),
   ("url", RVal.str "#"), ("hidden", RVal.bool false),
   ("child_actions", RVal.actionList
     [some submitAction, some discardAction, some deleteAction])]

/-- The registration sequence of the ordering scenario: root `m`, its
children `x` and `y`, then the independent root `z`. -/
def orderOps : List (Action × Option String) :=
  [(mAct, none), (xAct, some "m"), (yAct, some "m"), (zAct, none)]

/-- The registry state the ordering scenario produces. -/
def orderReg : ActionRegistry :=
  { items := [mAct, xAct, yAct, zAct],
    children := [("m", ["x", "y"]), ("z", [])],
    parents := [("x", "m"), ("y", "m")] }

/-!  Lemmas about the association-list primitives. -/

theorem alookup_append {α : Type} (l1 l2 : List (String × α)) (k : String) :
    alookup (l1 ++ l2) k = ((alookup l1 k).or (alookup l2 k)) := by
  induction l1 with
  | nil => simp [alookup]
  | cons e t ih =>
    by_cases h : e.1 = k <;> simp [alookup, h, ih]

theorem alookup_amod {α : Type} (l : List (String × α)) (k : String)
    (f : α → α) (k' : String) :
    alookup (amod l k f) k' =
      if k' = k then (alookup l k).map f else alookup l k' := by
  induction l with
  | nil => simp [alookup, amod]
  | cons e t ih =>
    simp only [amod, List.map_cons] at ih ⊢
    by_cases h' : k' = k
    · subst h'
      by_cases h : e.1 = k'
      · simp [alookup, h]
      · simp [alookup, h, ih]
    · by_cases h : e.1 = k
      · have h2 : ¬ e.1 = k' := fun hh => h' (hh.symm.trans h)
        have h4 : ¬ k = k' := fun hh => h' hh.symm
        simp [alookup, h, h2, h', h4, ih]
      · by_cases h3 : e.1 = k'
        · simp [alookup, h, h3, h']
        · simp [alookup, h, h3, h', ih]

theorem alookup_aerase {α : Type} (l : List (String × α)) (k k' : String) :
    alookup (aerase l k) k' = if k' = k then none else alookup l k' := by
  induction l with
  | nil => simp [alookup, aerase]
  | cons e t ih =>
    simp only [aerase, List.filter_cons] at ih ⊢
    by_cases h' : k' = k
    · subst h'
      by_cases h : e.1 = k'
      · simp [alookup, h, ih]
      · simp [alookup, h, ih, bne_iff_ne]
    · by_cases h : e.1 = k
      · have h2 : ¬ e.1 = k' := fun hh => h' (hh.symm.trans h)
        have h4 : ¬ k = k' := fun hh => h' hh.symm
        simp [alookup, h, h2, h', h4, ih]
      · by_cases h3 : e.1 = k'
        · simp [alookup, h, h3, h', bne_iff_ne]
        · simp [alookup, h, h3, h', ih, bne_iff_ne]

theorem amod_keys {α : Type} (l : List (String × α)) (k : String) (f : α → α) :
    (amod l k f).map Prod.fst = l.map Prod.fst := by
  induction l with
  | nil => simp [amod]
  | cons e t ih =>
    by_cases h : e.1 = k <;> simp [amod, h] <;> simpa [amod] using ih

theorem aerase_keys {α : Type} (l : List (String × α)) (k : String) :
    (aerase l k).map Prod.fst = (l.map Prod.fst).filter (fun x => x != k) := by
  induction l with
  | nil => simp [aerase]
  | cons e t ih =>
    simp only [aerase, List.filter_cons, List.map_cons] at ih ⊢
    by_cases h : e.1 = k
    · simp [h, ih]
    · simp [h, bne_iff_ne, ih]

theorem alookup_isSome_iff {α : Type} (l : List (String × α)) (k : String) :
    (alookup l k).isSome ↔ k ∈ l.map Prod.fst := by
  induction l with
  | nil => simp [alookup]
  | cons e t ih =>
    by_cases h : e.1 = k
    · simp [alookup, h]
    · simp only [alookup, if_neg h, List.map_cons, List.mem_cons]
      rw [ih]
      constructor
      · exact Or.inr
      · rintro (h1 | h1)
        · exact absurd h1.symm h
        · exact h1

theorem alookup_eq_none_iff {α : Type} (l : List (String × α)) (k : String) :
    alookup l k = none ↔ k ∉ l.map Prod.fst := by
  rw [← alookup_isSome_iff]
  cases alookup l k <;> simp

theorem alookup_mem {α : Type} {l : List (String × α)} {k : String} {v : α}
    (h : alookup l k = some v) : (k, v) ∈ l := by
  induction l with
  | nil => simp [alookup] at h
  | cons e t ih =>
    obtain ⟨e1, e2⟩ := e
    by_cases he : e1 = k
    · subst he
      simp [alookup] at h
      subst h
      exact List.mem_cons_self _ _
    · simp [alookup, he] at h
      exact List.mem_cons_of_mem _ (ih h)

theorem mem_alookup {α : Type} {l : List (String × α)} {k : String} {v : α}
    (hnd : (l.map Prod.fst).Nodup) (h : (k, v) ∈ l) : alookup l k = some v := by
  induction l with
  | nil => simp at h
  | cons e t ih =>
    simp only [List.map_cons, List.nodup_cons] at hnd
    rcases List.mem_cons.1 h with h1 | h1
    · subst h1; simp [alookup]
    · have hk : e.1 ≠ k := by
        intro he
        exact hnd.1 (he ▸ (List.mem_map.2 ⟨(k, v), h1, rfl⟩))
      simp [alookup, hk, ih hnd.2 h1]

theorem removeFirst_cons_self (t : List String) (k : String) :
    removeFirst (k :: t) k = t := by
  simp [removeFirst]

theorem mem_of_mem_removeFirst {l : List String} {k x : String}
    (h : x ∈ removeFirst l k) : x ∈ l := by
  induction l with
  | nil => simp [removeFirst] at h
  | cons e t ih =>
    by_cases he : e = k
    · subst he; simp only [removeFirst, if_pos rfl] at h
      exact List.mem_cons_of_mem _ h
    · simp only [removeFirst, if_neg he] at h
      rcases List.mem_cons.1 h with h1 | h1
      · exact h1 ▸ List.mem_cons_self _ _
      · exact List.mem_cons_of_mem _ (ih h1)

theorem removeFirst_nodup {l : List String} (k : String) (h : l.Nodup) :
    (removeFirst l k).Nodup := by
  induction l with
  | nil => simp [removeFirst]
  | cons e t ih =>
    rcases List.nodup_cons.1 h with ⟨he, ht⟩
    by_cases hek : e = k
    · simpa [removeFirst, hek] using ht
    · simp only [removeFirst, if_neg hek]
      exact List.nodup_cons.2 ⟨fun hm => he (mem_of_mem_removeFirst hm), ih ht⟩

theorem mem_removeFirst_iff {l : List String} {k x : String} (h : l.Nodup) :
    x ∈ removeFirst l k ↔ x ∈ l ∧ x ≠ k := by
  induction l with
  | nil => simp [removeFirst]
  | cons e t ih =>
    rcases List.nodup_cons.1 h with ⟨he, ht⟩
    by_cases hek : e = k
    · subst hek
      simp only [removeFirst, if_pos rfl, List.mem_cons]
      constructor
      · intro hm
        exact ⟨Or.inr hm, fun hx => he (hx ▸ hm)⟩
      · rintro ⟨hm | hm, hx⟩
        · exact absurd hm hx
        · exact hm
    · simp only [removeFirst, if_neg hek, List.mem_cons, ih ht]
      constructor
      · rintro (h1 | ⟨h1, h2⟩)
        · exact ⟨Or.inl h1, h1 ▸ hek⟩
        · exact ⟨Or.inr h1, h2⟩
      · rintro ⟨h1 | h1, h2⟩
        · exact Or.inl h1
        · exact Or.inr ⟨h1, h2⟩

theorem findAction_eq_none_iff (l : List Action) (k : String) :
    findAction l k = none ↔ ∀ a ∈ l, a.action_id ≠ k := by
  induction l with
  | nil => simp [findAction]
  | cons a t ih =>
    by_cases h : a.action_id = k <;> simp [findAction, h, ih]

theorem findAction_isSome_iff (l : List Action) (k : String) :
    (findAction l k).isSome ↔ k ∈ l.map Action.action_id := by
  induction l with
  | nil => simp [findAction]
  | cons a t ih =>
    by_cases h : a.action_id = k
    · simp [findAction, h]
    · simp only [findAction, if_neg h, List.map_cons, List.mem_cons]
      rw [ih]
      constructor
      · exact Or.inr
      · rintro (h1 | h1)
        · exact absurd h1.symm h
        · exact h1

theorem findAction_some {l : List Action} {k : String} {a : Action}
    (h : findAction l k = some a) : a ∈ l ∧ a.action_id = k := by
  induction l with
  | nil => simp [findAction] at h
  | cons b t ih =>
    by_cases hb : b.action_id = k
    · simp [findAction, hb] at h
      subst h
      exact ⟨List.mem_cons_self _ _, hb⟩
    · simp [findAction, hb] at h
      exact ⟨List.mem_cons_of_mem _ (ih h).1, (ih h).2⟩

theorem findAction_mem_nodup {l : List Action} {a : Action}
    (hnd : (l.map Action.action_id).Nodup) (h : a ∈ l) :
    findAction l a.action_id = some a := by
  induction l with
  | nil => simp at h
  | cons b t ih =>
    simp only [List.map_cons, List.nodup_cons] at hnd
    rcases List.mem_cons.1 h with h1 | h1
    · subst h1; simp [findAction]
    · have hb : b.action_id ≠ a.action_id := by
        intro he
        exact hnd.1 (he ▸ (List.mem_map.2 ⟨a, h1, rfl⟩))
      simp [findAction, hb, ih hnd.2 h1]

theorem findAction_append (l1 l2 : List Action) (k : String) :
    findAction (l1 ++ l2) k = ((findAction l1 k).or (findAction l2 k)) := by
  induction l1 with
  | nil => simp [findAction]
  | cons a t ih =>
    by_cases h : a.action_id = k <;> simp [findAction, h, ih]

theorem findAction_filter_ne (l : List Action) (c k : String) :
    findAction (l.filter (fun b => b.action_id != c)) k =
      if k = c then none else findAction l k := by
  induction l with
  | nil => simp [findAction]
  | cons a t ih =>
    simp only [List.filter_cons] at ih ⊢
    by_cases h' : k = c
    · subst h'
      by_cases h : a.action_id = k
      · simp [h, ih]
      · simp [findAction, h, ih, bne_iff_ne]
    · by_cases h : a.action_id = c
      · have h2 : ¬ a.action_id = k := fun hh => h' (hh.symm.trans h)
        have h4 : ¬ c = k := fun hh => h' hh.symm
        simp [findAction, h, h2, h', h4, ih]
      · by_cases h3 : a.action_id = k
        · simp [findAction, h, h3, h', bne_iff_ne]
        · simp [findAction, h, h3, h', ih, bne_iff_ne]

theorem get_action_eq_none_iff (reg : ActionRegistry) (k : String) :
    reg.get_action k = none ↔ k ∉ idsOf reg := by
  rw [← Option.not_isSome_iff_eq_none]
  exact not_congr (findAction_isSome_iff _ _)

theorem amod_amod {α : Type} (l : List (String × α)) (k : String)
    (f g : α → α) : amod (amod l k f) k g = amod l k (fun x => g (f x)) := by
  induction l with
  | nil => simp [amod]
  | cons e t ih =>
    simp only [amod, List.map_cons] at ih ⊢
    by_cases h : e.1 = k <;> simp [h, ih]

theorem amod_id {α : Type} (l : List (String × α)) (k : String) :
    amod l k (fun x => x) = l := by
  induction l with
  | nil => simp [amod]
  | cons e t ih =>
    simp only [amod, List.map_cons] at ih ⊢
    by_cases h : e.1 = k
    · subst h
      simp [ih]
    · simp [h, ih]

theorem aerase_amod {α : Type} (l : List (String × α)) (k : String)
    (f : α → α) : aerase (amod l k f) k = aerase l k := by
  induction l with
  | nil => simp [amod, aerase]
  | cons e t ih =>
    simp only [amod, List.map_cons, aerase, List.filter_cons] at ih ⊢
    by_cases h : e.1 = k <;> simp [h, ih]

/-- Mapping the id over an id-predicate filter of actions commutes. -/
theorem map_actionid_filter (l : List Action) (p : String → Bool) :
    (l.filter (fun b => p b.action_id)).map Action.action_id =
      (l.map Action.action_id).filter p := by
  induction l with
  | nil => simp
  | cons a t ih =>
    simp only [List.filter_cons, List.map_cons]
    by_cases h : p a.action_id = true
    · simp [h, ih]
    · simp only [Bool.not_eq_true] at h
      simp [h, ih]

/-- Mapping the key over a key-predicate filter of bindings commutes. -/
theorem map_fst_filter {α : Type} (l : List (String × α)) (p : String → Bool) :
    (l.filter (fun e => p e.1)).map Prod.fst = (l.map Prod.fst).filter p := by
  induction l with
  | nil => simp
  | cons e t ih =>
    simp only [List.filter_cons, List.map_cons]
    by_cases h : p e.1 = true
    · simp [h, ih]
    · simp only [Bool.not_eq_true] at h
      simp [h, ih]

theorem decide_not_mem_cons (x c : String) (rest : List String) :
    (decide (x ∉ rest) && (x != c)) = decide (x ∉ c :: rest) := by
  by_cases h1 : x = c <;> by_cases h2 : x ∈ rest <;>
    simp [h1, h2, List.mem_cons]

theorem filter_not_mem_nil {α : Type} (l : List α) (p : α → String)
    : l.filter (fun b => decide (p b ∉ ([] : List String))) = l := by
  induction l with
  | nil => rfl
  | cons a t ih => simp [List.filter_cons, ih]

/-!  Effect equations for `register`, one per control path. -/

theorem register_root_ok {reg : ActionRegistry} {a : Action} {p : Option String}
    (hp : pyTruthy p = false) (hfresh : reg.get_action a.action_id = none) :
    reg.register a p = .ok (rootAdded reg a) := by
  simp [ActionRegistry.register, ActionRegistry.baseRegister, hp, hfresh,
    rootAdded]

theorem register_dup {reg : ActionRegistry} {a : Action} {p : Option String}
    (hp : pyTruthy p = false) (hdup : (reg.get_action a.action_id).isSome) :
    reg.register a p = .error (.alreadyRegistered a.action_id, reg) := by
  simp [ActionRegistry.register, ActionRegistry.baseRegister, hp, hdup]

theorem register_parent_missing {reg : ActionRegistry} {a : Action} {p : String}
    (hp : pyTruthy (some p) = true) (hmiss : reg.get_action p = none) :
    reg.register a (some p) = .error (.notRegistered p, reg) := by
  simp [ActionRegistry.register, hp, hmiss]

theorem register_parent_is_child {reg : ActionRegistry} {a : Action} {p : String}
    (hp : pyTruthy (some p) = true) (hreg : (reg.get_action p).isSome)
    (hck : alookup reg.children p = none) :
    reg.register a (some p) = .error (.depthLimitExceeded a.action_id, reg) := by
  rcases Option.isSome_iff_exists.1 hreg with ⟨b, hb⟩
  simp [ActionRegistry.register, hp, hb, hck]

theorem register_parent_dup {reg : ActionRegistry} {a : Action} {p : String}
    (hp : pyTruthy (some p) = true) (hreg : (reg.get_action p).isSome)
    (hck : (alookup reg.children p).isSome)
    (hdup : (reg.get_action a.action_id).isSome) :
    reg.register a (some p) = .error (.alreadyRegistered a.action_id, reg) := by
  rcases Option.isSome_iff_exists.1 hreg with ⟨b, hb⟩
  rcases Option.isSome_iff_exists.1 hck with ⟨l, hl⟩
  simp [ActionRegistry.register, ActionRegistry.baseRegister, hp, hb, hl, hdup]

theorem register_child_ok {reg : ActionRegistry} {a : Action} {p : String}
    (hp : pyTruthy (some p) = true) (hreg : (reg.get_action p).isSome)
    (hck : (alookup reg.children p).isSome)
    (hfresh : reg.get_action a.action_id = none) :
    reg.register a (some p) = .ok (childAdded reg a p) := by
  rcases Option.isSome_iff_exists.1 hreg with ⟨b, hb⟩
  rcases Option.isSome_iff_exists.1 hck with ⟨l, hl⟩
  simp [ActionRegistry.register, ActionRegistry.baseRegister, hp, hb, hl, hfresh,
    childAdded]

/-- Inversion: what a successful `register` tells us. -/
theorem register_ok_inv {reg reg' : ActionRegistry} {a : Action}
    {p : Option String} (h : reg.register a p = .ok reg') :
    reg.get_action a.action_id = none ∧
      ((pyTruthy p = false ∧ reg' = rootAdded reg a) ∨
       (∃ pp : String, p = some pp ∧ pyTruthy (some pp) = true ∧
         (reg.get_action pp).isSome ∧ (alookup reg.children pp).isSome ∧
         reg' = childAdded reg a pp)) := by
  by_cases hp : pyTruthy p
  · cases p with
    | none => simp [pyTruthy] at hp
    | some pp =>
      by_cases hreg : (reg.get_action pp).isSome
      · by_cases hck : (alookup reg.children pp).isSome
        · by_cases hfresh : reg.get_action a.action_id = none
          · rw [register_child_ok hp hreg hck hfresh] at h
            exact ⟨hfresh, Or.inr ⟨pp, rfl, hp, hreg, hck,
              (Except.ok.inj h).symm⟩⟩
          · have hdup : (reg.get_action a.action_id).isSome := by
              cases hx : reg.get_action a.action_id
              · exact absurd hx hfresh
              · simp
            rw [register_parent_dup hp hreg hck hdup] at h
            exact absurd h (by simp)
        · have hck' : alookup reg.children pp = none :=
            Option.not_isSome_iff_eq_none.1 hck
          rw [register_parent_is_child hp hreg hck'] at h
          exact absurd h (by simp)
      · have hreg' : reg.get_action pp = none :=
          Option.not_isSome_iff_eq_none.1 hreg
        rw [register_parent_missing hp hreg'] at h
        exact absurd h (by simp)
  · have hp' : pyTruthy p = false := by simpa using hp
    by_cases hfresh : reg.get_action a.action_id = none
    · rw [register_root_ok hp' hfresh] at h
      exact ⟨hfresh, Or.inl ⟨hp', (Except.ok.inj h).symm⟩⟩
    · have hdup : (reg.get_action a.action_id).isSome := by
        cases hx : reg.get_action a.action_id
        · exact absurd hx hfresh
        · simp
      rw [register_dup hp' hdup] at h
      exact absurd h (by simp)

/-!  `Inv` is preserved by `register`. -/

theorem inv_register_root {reg : ActionRegistry} {a : Action}
    (hI : Inv reg) (hfresh : reg.get_action a.action_id = none) :
    Inv (rootAdded reg a) := by
  have hna : a.action_id ∉ idsOf reg := (get_action_eq_none_iff reg _).1 hfresh
  have hnack : a.action_id ∉ ckOf reg := fun hk => hna (hI.ckReg _ hk)
  have hnapk : a.action_id ∉ pkOf reg := fun hk => hna (hI.pkReg _ hk)
  have hids : idsOf (rootAdded reg a) = idsOf reg ++ [a.action_id] := by
    simp [idsOf, rootAdded]
  have hck : ckOf (rootAdded reg a) = ckOf reg ++ [a.action_id] := by
    simp [ckOf, rootAdded]
  simp only [rootAdded] at hids hck ⊢
  refine ⟨?_, ?_, ?_, ?_, ?_, ?_, ?_, ?_, ?_, ?_⟩
  · rw [hids]
    simp [List.nodup_append, hI.idsNodup, hna]
  · rw [hck]
    simp [List.nodup_append, hI.ckNodup, hnack]
  · exact hI.pkNodup
  · intro b hb
    rw [hck]
    simp only [List.mem_append] at hb
    rcases hb with hb | hb
    · rcases hI.rootOrChild b hb with hc | hc
      · exact Or.inl (List.mem_append.2 (Or.inl hc))
      · exact Or.inr hc
    · simp only [List.mem_singleton] at hb
      subst hb
      exact Or.inl (List.mem_append.2 (Or.inr (List.mem_singleton.2 rfl)))
  · intro x hx
    rw [hck] at hx
    rcases List.mem_append.1 hx with hx | hx
    · exact hI.notBoth x hx
    · simp only [List.mem_singleton] at hx
      subst hx
      exact hnapk
  · intro x hx
    rw [hck] at hx
    rw [hids]
    rcases List.mem_append.1 hx with hx | hx
    · exact List.mem_append.2 (Or.inl (hI.ckReg x hx))
    · exact List.mem_append.2 (Or.inr hx)
  · intro x hx
    rw [hids]
    exact List.mem_append.2 (Or.inl (hI.pkReg x hx))
  · intro e he
    rcases hI.childUp e he with ⟨f, hf, h1, h2⟩
    exact ⟨f, List.mem_append.2 (Or.inl hf), h1, h2⟩
  · intro f hf c hc
    rcases List.mem_append.1 hf with hf | hf
    · exact hI.childDown f hf c hc
    · simp only [List.mem_singleton] at hf
      subst hf
      simp at hc
  · intro f hf
    rcases List.mem_append.1 hf with hf | hf
    · exact hI.childNodup f hf
    · simp only [List.mem_singleton] at hf
      subst hf
      simp

theorem inv_register_child {reg : ActionRegistry} {a : Action} {pp : String}
    (hI : Inv reg) (hfresh : reg.get_action a.action_id = none)
    (hck : (alookup reg.children pp).isSome) :
    Inv (childAdded reg a pp) := by
  have hna : a.action_id ∉ idsOf reg := (get_action_eq_none_iff reg _).1 hfresh
  have hnack : a.action_id ∉ ckOf reg := fun hk => hna (hI.ckReg _ hk)
  have hnapk : a.action_id ∉ pkOf reg := fun hk => hna (hI.pkReg _ hk)
  have hdin : dinsert reg.parents a.action_id pp = reg.parents ++ [(a.action_id, pp)] := by
    have : alookup reg.parents a.action_id = none :=
      (alookup_eq_none_iff _ _).2 hnapk
    simp [dinsert, this]
  rcases Option.isSome_iff_exists.1 hck with ⟨l0, hl0⟩
  have hppmem : (pp, l0) ∈ reg.children := alookup_mem hl0
  have hids : idsOf (childAdded reg a pp) = idsOf reg ++ [a.action_id] := by
    simp [idsOf, childAdded]
  have hckeq : ckOf (childAdded reg a pp) = ckOf reg := by
    simp only [ckOf, childAdded]
    exact amod_keys _ _ _
  have hpkeq : pkOf (childAdded reg a pp) = pkOf reg ++ [a.action_id] := by
    simp only [pkOf, childAdded, hdin]
    simp
  -- membership characterisation of the modified children index
  have hmem_amod : ∀ f, f ∈ amod reg.children pp (fun l => l ++ [a.action_id]) →
      ∃ g ∈ reg.children,
        f = (if g.1 = pp then (g.1, g.2 ++ [a.action_id]) else g) := by
    intro f hf
    rcases List.mem_map.1 hf with ⟨g, hg, hge⟩
    exact ⟨g, hg, hge.symm⟩
  simp only [childAdded] at hids hckeq hpkeq ⊢
  refine ⟨?_, ?_, ?_, ?_, ?_, ?_, ?_, ?_, ?_, ?_⟩
  · rw [hids]
    simp [List.nodup_append, hI.idsNodup, hna]
  · rw [hckeq]
    exact hI.ckNodup
  · rw [hpkeq]
    simp [List.nodup_append, hI.pkNodup, hnapk]
  · intro b hb
    rw [hckeq, hpkeq]
    simp only [List.mem_append] at hb
    rcases hb with hb | hb
    · rcases hI.rootOrChild b hb with hc | hc
      · exact Or.inl hc
      · exact Or.inr (List.mem_append.2 (Or.inl hc))
    · simp only [List.mem_singleton] at hb
      subst hb
      exact Or.inr (List.mem_append.2 (Or.inr (List.mem_singleton.2 rfl)))
  · intro x hx
    rw [hckeq] at hx
    rw [hpkeq]
    intro hmem
    rcases List.mem_append.1 hmem with hm | hm
    · exact hI.notBoth x hx hm
    · simp only [List.mem_singleton] at hm
      subst hm
      exact hnack hx
  · intro x hx
    rw [hckeq] at hx
    rw [hids]
    exact List.mem_append.2 (Or.inl (hI.ckReg x hx))
  · intro x hx
    rw [hpkeq] at hx
    rw [hids]
    rcases List.mem_append.1 hx with hx | hx
    · exact List.mem_append.2 (Or.inl (hI.pkReg x hx))
    · exact List.mem_append.2 (Or.inr hx)
  · intro e he
    simp only [hdin] at he
    rcases List.mem_append.1 he with he | he
    · rcases hI.childUp e he with ⟨f, hf, h1, h2⟩
      by_cases hfp : f.1 = pp
      · refine ⟨(f.1, f.2 ++ [a.action_id]), ?_, h1, List.mem_append.2 (Or.inl h2)⟩
        have hmm := List.mem_map_of_mem
          (fun e => if e.1 = pp then (e.1, e.2 ++ [a.action_id]) else e) hf
        simpa [amod, hfp] using hmm
      · refine ⟨f, ?_, h1, h2⟩
        have hmm := List.mem_map_of_mem
          (fun e => if e.1 = pp then (e.1, e.2 ++ [a.action_id]) else e) hf
        simpa [amod, hfp] using hmm
    · simp only [List.mem_singleton] at he
      subst he
      refine ⟨(pp, l0 ++ [a.action_id]), ?_, rfl, List.mem_append.2 (Or.inr (by simp))⟩
      have hmm := List.mem_map_of_mem
        (fun e => if e.1 = pp then (e.1, e.2 ++ [a.action_id]) else e) hppmem
      simpa [amod] using hmm
  · intro f hf c hc
    rcases hmem_amod f hf with ⟨g, hg, hge⟩
    rw [hdin]
    by_cases hgp : g.1 = pp
    · rw [hge] at hc ⊢
      simp only [if_pos hgp] at hc ⊢
      rcases List.mem_append.1 hc with hc | hc
      · exact List.mem_append.2 (Or.inl (hI.childDown g hg c hc))
      · simp only [List.mem_singleton] at hc
        subst hc
        exact List.mem_append.2 (Or.inr (by simp [hgp]))
    · rw [hge] at hc ⊢
      simp only [if_neg hgp] at hc ⊢
      exact List.mem_append.2 (Or.inl (hI.childDown g hg c hc))
  · intro f hf
    rcases hmem_amod f hf with ⟨g, hg, hge⟩
    by_cases hgp : g.1 = pp
    · rw [hge]
      simp only [if_pos hgp]
      have hnal : a.action_id ∉ g.2 := by
        intro hmem
        have := hI.childDown g hg _ hmem
        exact hnapk (List.mem_map.2 ⟨_, this, rfl⟩)
      simp [List.nodup_append, hI.childNodup g hg, hnal]
    · rw [hge]
      simp only [if_neg hgp]
      exact hI.childNodup g hg

/-- Any successful `register` preserves the invariant. -/
theorem inv_register {reg reg' : ActionRegistry} {a : Action} {p : Option String}
    (hI : Inv reg) (h : reg.register a p = .ok reg') : Inv reg' := by
  rcases register_ok_inv h with ⟨hfresh, hcase⟩
  rcases hcase with ⟨_, rfl⟩ | ⟨pp, _, _, _, hck, rfl⟩
  · exact inv_register_root hI hfresh
  · exact inv_register_child hI hfresh hck

/-!  The unregistration cascade. -/

/-- Effect of a single child unregistration (the `else` branch of
`unregister`, registry.py lines 142-146). -/
theorem unregisterFuel_child_ok {fuel : Nat} {reg : ActionRegistry}
    {c : Action} {pid : String} {l : List String}
    (hsome : (reg.get_action c.action_id).isSome = true)
    (hnone : alookup reg.children c.action_id = none)
    (hpid : alookup reg.parents c.action_id = some pid)
    (hl : alookup reg.children pid = some l)
    (hmem : c.action_id ∈ l) :
    ActionRegistry.unregisterFuel (fuel + 1) reg c =
      .ok (childRemoved reg c.action_id pid) := by
  simp [ActionRegistry.unregisterFuel, ActionRegistry.baseUnregister, hsome,
    hnone, hpid, hl, hmem, childRemoved]

/-- A successful `unregisterFuel` implies the action id was registered. -/
theorem unregisterFuel_ok_isSome {fuel : Nat} {reg reg' : ActionRegistry}
    {a : Action} (h : ActionRegistry.unregisterFuel fuel reg a = .ok reg') :
    (reg.get_action a.action_id).isSome = true := by
  cases fuel with
  | zero => simp [ActionRegistry.unregisterFuel] at h
  | succ n =>
    by_cases hs : (reg.get_action a.action_id).isSome = true
    · exact hs
    · have hs' : reg.get_action a.action_id = none :=
        Option.not_isSome_iff_eq_none.1 (by simpa using hs)
      simp [ActionRegistry.unregisterFuel, ActionRegistry.baseUnregister,
        hs'] at h

/-- Effect of the cascading child-unregistration loop: starting from a
state whose `_children` entry for `pid` is exactly the snapshot `rest`
still to be processed, a successful run removes exactly those children
from the mapping, the reverse index, and the parent's live child
list. -/
theorem cascade_effect {fuel : Nat} {pid : String} :
    ∀ (rest : List String) (s s' : ActionRegistry),
    (∀ x ∈ rest, x ∈ idsOf s ∧ x ∉ ckOf s ∧ (x, pid) ∈ s.parents) →
    rest.Nodup →
    (pkOf s).Nodup →
    alookup s.children pid = some rest →
    ActionRegistry.unregisterIdsWith (ActionRegistry.unregisterFuel fuel)
      rest s = .ok s' →
    s'.items = s.items.filter (fun b => decide (b.action_id ∉ rest)) ∧
    s'.parents = s.parents.filter (fun e => decide (e.1 ∉ rest)) ∧
    (∃ F : List String → List String, s'.children = amod s.children pid F) ∧
    alookup s'.children pid = some [] ∧
    s'.populated = s.populated ∧ s'.defaults = s.defaults := by
  intro rest
  induction rest with
  | nil =>
    intro s s' _ _ _ hpid h
    simp only [ActionRegistry.unregisterIdsWith, Except.ok.injEq] at h
    subst h
    refine ⟨?_, ?_, ⟨fun x => x, (amod_id _ _).symm⟩, hpid, rfl, rfl⟩
    · exact (filter_not_mem_nil _ _).symm
    · exact (filter_not_mem_nil _ _).symm
  | cons c rest' ih =>
    intro s s' hmem hnd hpknd hpid h
    obtain ⟨hcid, hcck, hcpar⟩ := hmem c (List.mem_cons_self _ _)
    have hcsome : (s.get_action c).isSome = true := by
      have := (findAction_isSome_iff s.items c).2 hcid
      exact this
    rcases Option.isSome_iff_exists.1 hcsome with ⟨ac, hac⟩
    have hacid : ac.action_id = c := (findAction_some hac).2
    have hndc : c ∉ rest' := (List.nodup_cons.1 hnd).1
    have hnd' : rest'.Nodup := (List.nodup_cons.1 hnd).2
    cases fuel with
    | zero =>
      rw [ActionRegistry.unregisterIdsWith] at h
      rw [show s.get_action c = some ac from hac] at h
      simp [ActionRegistry.unregisterFuel] at h
    | succ n =>
      rw [ActionRegistry.unregisterIdsWith] at h
      rw [show s.get_action c = some ac from hac] at h
      have hstep : ActionRegistry.unregisterFuel (n + 1) s ac =
          .ok (childRemoved s ac.action_id pid) := by
        refine unregisterFuel_child_ok ?_ ?_ ?_ hpid ?_
        · rw [hacid]; exact hcsome
        · rw [hacid]; exact (alookup_eq_none_iff _ _).2 hcck
        · rw [hacid]; exact mem_alookup hpknd hcpar
        · rw [hacid]; exact List.mem_cons_self _ _
      simp only [hstep] at h
      -- the state after removing the first child
      set s3 := childRemoved s ac.action_id pid with hs3
      have hids3 : idsOf s3 = (idsOf s).filter (fun x => x != c) := by
        simp only [hs3, childRemoved, idsOf, hacid]
        exact map_actionid_filter s.items (fun x => x != c)
      have hck3 : ckOf s3 = ckOf s := by
        simp only [hs3, childRemoved, ckOf]
        exact amod_keys _ _ _
      have hpk3 : pkOf s3 = (pkOf s).filter (fun x => x != c) := by
        simp only [hs3, childRemoved, pkOf, aerase, hacid]
        exact map_fst_filter s.parents (fun x => x != c)
      have hpar3 : s3.parents = s.parents.filter (fun e => e.1 != c) := by
        simp only [hs3, childRemoved, aerase, hacid]
      have hitems3 : s3.items = s.items.filter (fun b => b.action_id != c) := by
        simp only [hs3, childRemoved, hacid]
      have hch3 : s3.children = amod s.children pid
          (fun l0 => removeFirst l0 c) := by
        simp only [hs3, childRemoved, hacid]
      have hpid3 : alookup s3.children pid = some rest' := by
        rw [hch3, alookup_amod]
        simp [hpid, removeFirst_cons_self]
      have hmem3 : ∀ x ∈ rest', x ∈ idsOf s3 ∧ x ∉ ckOf s3 ∧
          (x, pid) ∈ s3.parents := by
        intro x hx
        obtain ⟨h1, h2, h3⟩ := hmem x (List.mem_cons_of_mem _ hx)
        have hxc : x ≠ c := fun hh => hndc (hh ▸ hx)
        refine ⟨?_, ?_, ?_⟩
        · rw [hids3]
          exact List.mem_filter.2 ⟨h1, by simp [hxc]⟩
        · rw [hck3]; exact h2
        · rw [hpar3]
          exact List.mem_filter.2 ⟨h3, by simp [hxc]⟩
      have hpknd3 : (pkOf s3).Nodup := by
        rw [hpk3]
        exact hpknd.filter _
      obtain ⟨hi, hp, ⟨F, hF⟩, hlook, hpop, hdef⟩ :=
        ih s3 s' hmem3 hnd' hpknd3 hpid3 h
      refine ⟨?_, ?_, ⟨fun x => F (removeFirst x c), ?_⟩, hlook,
        hpop.trans ?_, hdef.trans ?_⟩
      · rw [hi, hitems3, List.filter_filter]
        refine List.filter_congr ?_
        intro b _
        exact decide_not_mem_cons b.action_id c rest'
      · rw [hp, hpar3, List.filter_filter]
        refine List.filter_congr ?_
        intro e _
        exact decide_not_mem_cons e.1 c rest'
      · rw [hF, hch3, amod_amod]
      · simp [hs3, childRemoved]
      · simp [hs3, childRemoved]

/-- In an association list with duplicate-free keys, a key determines
its value. -/
theorem alist_functional {α : Type} {l : List (String × α)}
    (h : (l.map Prod.fst).Nodup) {k : String} {v1 v2 : α}
    (h1 : (k, v1) ∈ l) (h2 : (k, v2) ∈ l) : v1 = v2 := by
  have e1 := mem_alookup h h1
  have e2 := mem_alookup h h2
  rw [e1] at e2
  exact Option.some.inj e2

/-- Effect of unregistering a parent (root) action under the invariant:
the root and, cascading, all its children disappear from the mapping and
from both indexes. -/
theorem unregisterFuel_root_ok {fuel : Nat} {reg reg' : ActionRegistry}
    {m : Action} {l : List String}
    (hI : Inv reg)
    (hl : alookup reg.children m.action_id = some l)
    (h : ActionRegistry.unregisterFuel fuel reg m = .ok reg') :
    reg'.items = reg.items.filter
      (fun b => decide (b.action_id ∉ m.action_id :: l)) ∧
    reg'.parents = reg.parents.filter (fun e => decide (e.1 ∉ l)) ∧
    reg'.children = aerase reg.children m.action_id ∧
    reg'.populated = reg.populated ∧ reg'.defaults = reg.defaults := by
  have hsome := unregisterFuel_ok_isSome h
  have hmck : m.action_id ∈ ckOf reg := by
    have : (alookup reg.children m.action_id).isSome = true := by
      simp [hl]
    exact (alookup_isSome_iff _ _).1 this
  have hmpk : m.action_id ∉ pkOf reg := hI.notBoth _ hmck
  have hml : (m.action_id, l) ∈ reg.children := alookup_mem hl
  have hlsub : ∀ x ∈ l, (x, m.action_id) ∈ reg.parents :=
    fun x hx => hI.childDown _ hml x hx
  have hlpk : ∀ x ∈ l, x ∈ pkOf reg :=
    fun x hx => List.mem_map.2 ⟨_, hlsub x hx, rfl⟩
  cases fuel with
  | zero => simp [ActionRegistry.unregisterFuel] at h
  | succ n =>
    have hbase : reg.baseUnregister m = .ok (itemsErased reg m.action_id) := by
      simp [ActionRegistry.baseUnregister, hsome, itemsErased]
    rw [ActionRegistry.unregisterFuel, hbase] at h
    simp only at h
    have hl1 : alookup (itemsErased reg m.action_id).children m.action_id =
        some l := hl
    rw [hl1] at h
    simp only at h
    cases hrun : ActionRegistry.unregisterIdsWith
        (ActionRegistry.unregisterFuel n) l (itemsErased reg m.action_id) with
    | error e => rw [hrun] at h; simp at h
    | ok s2 =>
      rw [hrun] at h
      simp only [Except.ok.injEq] at h
      subst h
      have hmemc : ∀ x ∈ l, x ∈ idsOf (itemsErased reg m.action_id) ∧
          x ∉ ckOf (itemsErased reg m.action_id) ∧
          (x, m.action_id) ∈ (itemsErased reg m.action_id).parents := by
        intro x hx
        have hxpk := hlpk x hx
        have hxne : x ≠ m.action_id := fun hh => hmpk (hh ▸ hxpk)
        refine ⟨?_, ?_, hlsub x hx⟩
        · show x ∈ (reg.items.filter
            (fun b => b.action_id != m.action_id)).map Action.action_id
          rw [map_actionid_filter reg.items (fun y => y != m.action_id)]
          exact List.mem_filter.2 ⟨hI.pkReg x hxpk, by simp [hxne]⟩
        · show x ∉ ckOf reg
          intro hck
          exact hI.notBoth x hck hxpk
      obtain ⟨hi, hp, ⟨F, hF⟩, _, hpop, hdef⟩ :=
        cascade_effect l _ s2 hmemc (hI.childNodup _ hml) hI.pkNodup hl1 hrun
      refine ⟨?_, ?_, ?_, hpop, hdef⟩
      · rw [hi]
        show (itemsErased reg m.action_id).items.filter _ = _
        simp only [itemsErased, List.filter_filter]
        refine List.filter_congr ?_
        intro b _
        exact decide_not_mem_cons b.action_id m.action_id l
      · exact hp
      · rw [hF]
        show aerase (amod (itemsErased reg m.action_id).children _ _) _ = _
        simp only [itemsErased]
        exact aerase_amod _ _ _

/-- The invariant is preserved by removing a registered child action. -/
theorem inv_childRemoved {reg : ActionRegistry} {cid pid : String}
    (hI : Inv reg) (hpar : (cid, pid) ∈ reg.parents) :
    Inv (childRemoved reg cid pid) := by
  have hcidpk : cid ∈ pkOf reg := List.mem_map.2 ⟨_, hpar, rfl⟩
  have hcidck : cid ∉ ckOf reg := fun hck => hI.notBoth cid hck hcidpk
  have hids : idsOf (childRemoved reg cid pid) =
      (idsOf reg).filter (fun x => x != cid) := by
    simp only [childRemoved, idsOf]
    exact map_actionid_filter reg.items (fun x => x != cid)
  have hck : ckOf (childRemoved reg cid pid) = ckOf reg := by
    simp only [childRemoved, ckOf]
    exact amod_keys _ _ _
  have hpk : pkOf (childRemoved reg cid pid) =
      (pkOf reg).filter (fun x => x != cid) := by
    simp only [childRemoved, pkOf, aerase]
    exact map_fst_filter reg.parents (fun x => x != cid)
  have hmem_amod : ∀ f, f ∈ (childRemoved reg cid pid).children →
      ∃ g ∈ reg.children,
        f = (if g.1 = pid then (g.1, removeFirst g.2 cid) else g) := by
    intro f hf
    simp only [childRemoved, amod] at hf
    rcases List.mem_map.1 hf with ⟨g, hg, hge⟩
    exact ⟨g, hg, hge.symm⟩
  refine ⟨?_, ?_, ?_, ?_, ?_, ?_, ?_, ?_, ?_, ?_⟩
  · rw [hids]; exact hI.idsNodup.filter _
  · rw [hck]; exact hI.ckNodup
  · rw [hpk]; exact hI.pkNodup.filter _
  · intro b hb
    simp only [childRemoved, List.mem_filter, bne_iff_ne, ne_eq,
      decide_not] at hb
    obtain ⟨hbmem, hbne⟩ := hb
    have hbne' : b.action_id ≠ cid := by simpa using hbne
    rw [hck, hpk]
    rcases hI.rootOrChild b hbmem with hc | hc
    · exact Or.inl hc
    · exact Or.inr (List.mem_filter.2 ⟨hc, by simp [hbne']⟩)
  · intro x hx
    rw [hck] at hx
    rw [hpk]
    intro hm
    exact hI.notBoth x hx (List.mem_filter.1 hm).1
  · intro x hx
    rw [hck] at hx
    rw [hids]
    have hxne : x ≠ cid := fun hh => (hh ▸ hcidck) hx
    exact List.mem_filter.2 ⟨hI.ckReg x hx, by simp [hxne]⟩
  · intro x hx
    rw [hpk] at hx
    rw [hids]
    obtain ⟨hxpk, hxne⟩ := List.mem_filter.1 hx
    exact List.mem_filter.2 ⟨hI.pkReg x hxpk, hxne⟩
  · intro e he
    simp only [childRemoved, aerase, List.mem_filter, bne_iff_ne] at he
    obtain ⟨hemem, hene⟩ := he
    have hene' : e.1 ≠ cid := by simpa using hene
    rcases hI.childUp e hemem with ⟨f, hf, h1, h2⟩
    by_cases hfp : f.1 = pid
    · refine ⟨(f.1, removeFirst f.2 cid), ?_, h1, ?_⟩
      · have hmm := List.mem_map_of_mem
          (fun g => if g.1 = pid then (g.1, removeFirst g.2 cid) else g) hf
        simpa [childRemoved, amod, hfp] using hmm
      · exact (mem_removeFirst_iff (hI.childNodup f hf)).2 ⟨h2, hene'⟩
    · refine ⟨f, ?_, h1, h2⟩
      have hmm := List.mem_map_of_mem
        (fun g => if g.1 = pid then (g.1, removeFirst g.2 cid) else g) hf
      simpa [childRemoved, amod, hfp] using hmm
  · intro f hf c hc
    rcases hmem_amod f hf with ⟨g, hg, hge⟩
    simp only [childRemoved]
    by_cases hgp : g.1 = pid
    · rw [hge] at hc ⊢
      simp only [if_pos hgp] at hc ⊢
      obtain ⟨hcg, hcne⟩ := (mem_removeFirst_iff (hI.childNodup g hg)).1 hc
      refine List.mem_filter.2 ⟨?_, by simp [hcne]⟩
      exact hgp ▸ hI.childDown g hg c hcg
    · rw [hge] at hc ⊢
      simp only [if_neg hgp] at hc ⊢
      have hcpar := hI.childDown g hg c hc
      have hcne : c ≠ cid := by
        intro hh
        subst hh
        exact hgp (alist_functional hI.pkNodup hcpar hpar)
      exact List.mem_filter.2 ⟨hcpar, by simp [hcne]⟩
  · intro f hf
    rcases hmem_amod f hf with ⟨g, hg, hge⟩
    by_cases hgp : g.1 = pid
    · rw [hge]
      simp only [if_pos hgp]
      exact removeFirst_nodup _ (hI.childNodup g hg)
    · rw [hge]
      simp only [if_neg hgp]
      exact hI.childNodup g hg

/-- The invariant holds for the state produced by a root (cascading)
unregistration, characterised by the three filter equations. -/
theorem inv_rootRemoved {reg reg' : ActionRegistry} {mid : String}
    {l : List String}
    (hI : Inv reg)
    (hl : alookup reg.children mid = some l)
    (hitems : reg'.items =
      reg.items.filter (fun b => decide (b.action_id ∉ mid :: l)))
    (hparents : reg'.parents =
      reg.parents.filter (fun e => decide (e.1 ∉ l)))
    (hchildren : reg'.children = aerase reg.children mid) :
    Inv reg' := by
  have hmck : mid ∈ ckOf reg :=
    (alookup_isSome_iff _ _).1 (by simp [hl])
  have hmpk : mid ∉ pkOf reg := hI.notBoth _ hmck
  have hml : (mid, l) ∈ reg.children := alookup_mem hl
  have hlsub : ∀ x ∈ l, (x, mid) ∈ reg.parents :=
    fun x hx => hI.childDown _ hml x hx
  have hlpk : ∀ x ∈ l, x ∈ pkOf reg :=
    fun x hx => List.mem_map.2 ⟨_, hlsub x hx, rfl⟩
  have hids' : idsOf reg' =
      (idsOf reg).filter (fun x => decide (x ∉ mid :: l)) := by
    rw [idsOf, hitems]
    exact map_actionid_filter reg.items (fun x => decide (x ∉ mid :: l))
  have hck' : ckOf reg' = (ckOf reg).filter (fun x => x != mid) := by
    rw [ckOf, hchildren]
    exact aerase_keys _ _
  have hpk' : pkOf reg' = (pkOf reg).filter (fun x => decide (x ∉ l)) := by
    rw [pkOf, hparents]
    exact map_fst_filter reg.parents (fun x => decide (x ∉ l))
  refine ⟨?_, ?_, ?_, ?_, ?_, ?_, ?_, ?_, ?_, ?_⟩
  · rw [hids']; exact hI.idsNodup.filter _
  · rw [hck']; exact hI.ckNodup.filter _
  · rw [hpk']; exact hI.pkNodup.filter _
  · intro b hb
    rw [hitems] at hb
    obtain ⟨hbmem, hbp⟩ := List.mem_filter.1 hb
    have hbnot : b.action_id ∉ mid :: l := of_decide_eq_true hbp
    have hbne : b.action_id ≠ mid := fun hh => hbnot (hh ▸ List.mem_cons_self _ _)
    have hbnl : b.action_id ∉ l := fun hh => hbnot (List.mem_cons_of_mem _ hh)
    rw [hck', hpk']
    rcases hI.rootOrChild b hbmem with hc | hc
    · exact Or.inl (List.mem_filter.2 ⟨hc, by simp [hbne]⟩)
    · exact Or.inr (List.mem_filter.2 ⟨hc, by simp [hbnl]⟩)
  · intro x hx
    rw [hck'] at hx
    rw [hpk']
    intro hm
    exact hI.notBoth x (List.mem_filter.1 hx).1 (List.mem_filter.1 hm).1
  · intro x hx
    rw [hck'] at hx
    obtain ⟨hxck, hxne⟩ := List.mem_filter.1 hx
    have hxne' : x ≠ mid := by simpa using hxne
    have hxnl : x ∉ l := fun hh => hI.notBoth x hxck (hlpk x hh)
    rw [hids']
    refine List.mem_filter.2 ⟨hI.ckReg x hxck, ?_⟩
    simp [List.mem_cons, hxne', hxnl]
  · intro x hx
    rw [hpk'] at hx
    obtain ⟨hxpk, hxp⟩ := List.mem_filter.1 hx
    have hxnl : x ∉ l := of_decide_eq_true hxp
    have hxne : x ≠ mid := fun hh => hmpk (hh ▸ hxpk)
    rw [hids']
    refine List.mem_filter.2 ⟨hI.pkReg x hxpk, ?_⟩
    simp [List.mem_cons, hxne, hxnl]
  · intro e he
    rw [hparents] at he
    obtain ⟨hemem, hep⟩ := List.mem_filter.1 he
    have henl : e.1 ∉ l := of_decide_eq_true hep
    rcases hI.childUp e hemem with ⟨f, hf, h1, h2⟩
    have hfne : f.1 ≠ mid := by
      intro hh
      have hfmem : (mid, f.2) ∈ reg.children := by
        have : f = (f.1, f.2) := rfl
        rw [← hh]
        exact hf
      have := mem_alookup hI.ckNodup hfmem
      rw [hl] at this
      have hfl : f.2 = l := (Option.some.inj this).symm
      exact henl (hfl ▸ h2)
    refine ⟨f, ?_, h1, h2⟩
    rw [hchildren]
    exact List.mem_filter.2 ⟨hf, by simp [hfne]⟩
  · intro f hf c hc
    rw [hchildren] at hf
    obtain ⟨hfmem, hfne⟩ := List.mem_filter.1 hf
    have hfne' : f.1 ≠ mid := by simpa using hfne
    have hcpar := hI.childDown f hfmem c hc
    have hcnl : c ∉ l := by
      intro hh
      exact hfne' (alist_functional hI.pkNodup hcpar (hlsub c hh))
    rw [hparents]
    exact List.mem_filter.2 ⟨hcpar, by simp [hcnl]⟩
  · intro f hf
    rw [hchildren] at hf
    exact hI.childNodup f (List.mem_filter.1 hf).1

/-- Inversion for a successful `unregisterFuel` under the invariant:
either the action was a root and the cascading equations hold, or it was
a child and the result is `childRemoved`. -/
theorem unregisterFuel_ok_inv {fuel : Nat} {reg reg' : ActionRegistry}
    {m : Action}
    (hI : Inv reg)
    (h : ActionRegistry.unregisterFuel fuel reg m = .ok reg') :
    (reg.get_action m.action_id).isSome = true ∧
      ((∃ l, alookup reg.children m.action_id = some l ∧
        reg'.items = reg.items.filter
          (fun b => decide (b.action_id ∉ m.action_id :: l)) ∧
        reg'.parents = reg.parents.filter (fun e => decide (e.1 ∉ l)) ∧
        reg'.children = aerase reg.children m.action_id ∧
        reg'.populated = reg.populated ∧ reg'.defaults = reg.defaults) ∨
       (alookup reg.children m.action_id = none ∧
        ∃ pid, (m.action_id, pid) ∈ reg.parents ∧
          reg' = childRemoved reg m.action_id pid)) := by
  have hsome := unregisterFuel_ok_isSome h
  refine ⟨hsome, ?_⟩
  cases hcl : alookup reg.children m.action_id with
  | some l =>
    obtain ⟨h1, h2, h3, h4, h5⟩ := unregisterFuel_root_ok hI hcl h
    exact Or.inl ⟨l, rfl, h1, h2, h3, h4, h5⟩
  | none =>
    have hmid : m.action_id ∈ idsOf reg := (findAction_isSome_iff _ _).1 hsome
    obtain ⟨b, hbmem, hbid⟩ := List.mem_map.1 hmid
    have hmck : m.action_id ∉ ckOf reg := (alookup_eq_none_iff _ _).1 hcl
    have hmpk : m.action_id ∈ pkOf reg := by
      rcases hI.rootOrChild b hbmem with hc | hc
      · exact absurd (hbid ▸ hc) hmck
      · exact hbid ▸ hc
    obtain ⟨e, hemem, heid⟩ := List.mem_map.1 hmpk
    have hepar : (m.action_id, e.2) ∈ reg.parents := by
      have : e = (e.1, e.2) := rfl
      rw [← heid]
      exact hemem
    have hpid : alookup reg.parents m.action_id = some e.2 :=
      mem_alookup hI.pkNodup hepar
    rcases hI.childUp e hemem with ⟨f, hf, hf1, hf2⟩
    have hfmem : (e.2, f.2) ∈ reg.children := by
      have : f = (f.1, f.2) := rfl
      rw [← hf1]
      exact hf
    have hlk : alookup reg.children e.2 = some f.2 :=
      mem_alookup hI.ckNodup hfmem
    have hfmem2 : m.action_id ∈ f.2 := heid ▸ hf2
    cases fuel with
    | zero => simp [ActionRegistry.unregisterFuel] at h
    | succ n =>
      have hstep := @unregisterFuel_child_ok n reg m e.2 f.2 hsome hcl hpid hlk hfmem2
      rw [hstep] at h
      exact Or.inr ⟨rfl, e.2, hepar, (Except.ok.inj h).symm⟩

/-- A successful `unregister` preserves the invariant. -/
theorem inv_unregisterFuel {fuel : Nat} {reg reg' : ActionRegistry}
    {m : Action} (hI : Inv reg)
    (h : ActionRegistry.unregisterFuel fuel reg m = .ok reg') : Inv reg' := by
  rcases (unregisterFuel_ok_inv hI h).2 with
    ⟨l, hcl, h1, h2, h3, _, _⟩ | ⟨_, pid, hpar, rfl⟩
  · exact inv_rootRemoved hI hcl h1 h2 h3
  · exact inv_childRemoved hI hpar

theorem inv_unregister {reg reg' : ActionRegistry} {m : Action}
    (hI : Inv reg) (h : reg.unregister m = .ok reg') : Inv reg' :=
  inv_unregisterFuel hI h

/-!  Effect of a sequence of successful registrations (the ordering
guarantees). -/

theorem opsRoots_cons_root {a : Action} {p : Option String}
    {rest : List (Action × Option String)} (hp : pyTruthy p = false) :
    opsRoots ((a, p) :: rest) = a :: opsRoots rest := by
  simp [opsRoots, List.filterMap_cons, hp]

theorem opsRoots_cons_child {a : Action} {p : Option String}
    {rest : List (Action × Option String)} (hp : pyTruthy p = true) :
    opsRoots ((a, p) :: rest) = opsRoots rest := by
  simp [opsRoots, List.filterMap_cons, hp]

theorem opsChildrenOf_cons_root {k : String} {a : Action} {p : Option String}
    {rest : List (Action × Option String)} (hp : pyTruthy p = false) :
    opsChildrenOf k ((a, p) :: rest) = opsChildrenOf k rest := by
  simp [opsChildrenOf, List.filterMap_cons, hp]

theorem opsChildrenOf_cons_child_eq {pp : String} {a : Action}
    {rest : List (Action × Option String)} (hp : pyTruthy (some pp) = true) :
    opsChildrenOf pp ((a, some pp) :: rest) = a :: opsChildrenOf pp rest := by
  simp [opsChildrenOf, List.filterMap_cons, hp]

theorem opsChildrenOf_cons_child_ne {k pp : String} {a : Action}
    {rest : List (Action × Option String)} (hne : pp ≠ k) :
    opsChildrenOf k ((a, some pp) :: rest) = opsChildrenOf k rest := by
  simp [opsChildrenOf, List.filterMap_cons, hne]

/-- Cumulative effect of a sequence of successful `register` calls: the
mapping extends in call order, the root index keys extend in
root-registration order, and each parent's child list extends in
registration order. -/
theorem registerAll_effect :
    ∀ (ops : List (Action × Option String)) (reg reg' : ActionRegistry),
    Inv reg →
    ActionRegistry.registerAll ops reg = .ok reg' →
    Inv reg' ∧
    reg'.items = reg.items ++ ops.map Prod.fst ∧
    reg'.populated = reg.populated ∧
    reg'.defaults = reg.defaults ∧
    reg'.children.map Prod.fst =
      ckOf reg ++ (opsRoots ops).map Action.action_id ∧
    (∀ k, alookup reg'.children k =
      match alookup reg.children k with
      | some l => some (l ++ (opsChildrenOf k ops).map Action.action_id)
      | none =>
        if k ∈ (opsRoots ops).map Action.action_id then
          some ((opsChildrenOf k ops).map Action.action_id)
        else none) := by
  intro ops
  induction ops with
  | nil =>
    intro reg reg' hI h
    simp only [ActionRegistry.registerAll, Except.ok.injEq] at h
    subst h
    refine ⟨hI, by simp, rfl, rfl, by simp [opsRoots, ckOf], ?_⟩
    intro k
    cases hh : alookup reg.children k <;> simp [opsRoots, opsChildrenOf]
  | cons op rest ih =>
    obtain ⟨a, p⟩ := op
    intro reg reg' hI h
    rw [ActionRegistry.registerAll] at h
    cases hreg1 : reg.register a p with
    | error e => rw [hreg1] at h; simp at h
    | ok reg1 =>
      rw [hreg1] at h
      simp only at h
      have hI1 : Inv reg1 := inv_register hI hreg1
      obtain ⟨hI', hitems, hpop, hdef, hck, hch⟩ := ih reg1 reg' hI1 h
      obtain ⟨hfresh, hcase⟩ := register_ok_inv hreg1
      rcases hcase with ⟨hp, rfl⟩ | ⟨pp, rfl, hp, hpreg, hpck, rfl⟩
      · -- the call registered a new root
        refine ⟨hI', ?_, ?_, ?_, ?_, ?_⟩
        · rw [hitems]
          simp [rootAdded]
        · rw [hpop]; rfl
        · rw [hdef]; rfl
        · rw [hck]
          have : ckOf (rootAdded reg a) = ckOf reg ++ [a.action_id] := by
            simp [ckOf, rootAdded]
          rw [this, opsRoots_cons_root hp]
          simp
        · intro k
          have hk1 := hch k
          have hlk : alookup (rootAdded reg a).children k =
              ((alookup reg.children k).or
                (if a.action_id = k then some [] else none)) := by
            simp only [rootAdded]
            rw [alookup_append]
            simp [alookup]
          rw [hlk] at hk1
          rw [opsRoots_cons_root hp, opsChildrenOf_cons_root hp]
          cases hh : alookup reg.children k with
          | some l =>
            rw [hh] at hk1
            simp only [Option.or_some] at hk1
            simpa using hk1
          | none =>
            rw [hh] at hk1
            simp only [Option.none_or] at hk1
            by_cases hak : a.action_id = k
            · rw [if_pos hak] at hk1
              simp only at hk1
              simp [hak, hk1]
            · rw [if_neg hak] at hk1
              simp only [List.map_cons, List.mem_cons] at hk1 ⊢
              have hkne : ¬ k = a.action_id := fun hh2 => hak hh2.symm
              simp [hkne, hk1]
      · -- the call registered a child under the root `pp`
        refine ⟨hI', ?_, ?_, ?_, ?_, ?_⟩
        · rw [hitems]
          simp [childAdded]
        · rw [hpop]; rfl
        · rw [hdef]; rfl
        · rw [hck]
          have : ckOf (childAdded reg a pp) = ckOf reg := by
            simp only [ckOf, childAdded]
            exact amod_keys _ _ _
          rw [this, opsRoots_cons_child hp]
        · intro k
          have hk1 := hch k
          have hlk : alookup (childAdded reg a pp).children k =
              (if k = pp then (alookup reg.children pp).map
                (fun l => l ++ [a.action_id]) else alookup reg.children k) := by
            simp only [childAdded]
            exact alookup_amod _ _ _ _
          rw [hlk] at hk1
          rw [opsRoots_cons_child hp]
          by_cases hkpp : k = pp
          · subst hkpp
            rcases Option.isSome_iff_exists.1 hpck with ⟨l0, hl0⟩
            rw [if_pos rfl, hl0] at hk1
            simp only [Option.map_some'] at hk1
            rw [hl0, opsChildrenOf_cons_child_eq hp]
            simp only [List.map_cons] at hk1 ⊢
            rw [hk1]
            simp
          · rw [if_neg hkpp] at hk1
            rw [opsChildrenOf_cons_child_ne (fun hh2 => hkpp hh2.symm)]
            exact hk1

/-!  Invariant preservation for `populate` and `reset`. -/

theorem inv_setPopulated {reg : ActionRegistry} (hI : Inv reg) {b : Bool} :
    Inv { reg with populated := b } :=
  ⟨hI.idsNodup, hI.ckNodup, hI.pkNodup, hI.rootOrChild, hI.notBoth,
   hI.ckReg, hI.pkReg, hI.childUp, hI.childDown, hI.childNodup⟩

theorem inv_registerChildList {pid : String} :
    ∀ (cs : List Action) (reg reg' : ActionRegistry),
    Inv reg → ActionRegistry.registerChildList pid cs reg = .ok reg' →
    Inv reg' := by
  intro cs
  induction cs with
  | nil =>
    intro reg reg' hI h
    simp only [ActionRegistry.registerChildList, Except.ok.injEq] at h
    exact h ▸ hI
  | cons c rest ih =>
    intro reg reg' hI h
    rw [ActionRegistry.registerChildList] at h
    cases hr : reg.register c (some pid) with
    | error e => rw [hr] at h; simp at h
    | ok reg1 =>
      rw [hr] at h
      simp only at h
      exact ih reg1 reg' (inv_register hI hr) h

theorem inv_populateDefaults :
    ∀ (ds : List DefaultEntry) (reg reg' : ActionRegistry),
    Inv reg → ActionRegistry.populateDefaults ds reg = .ok reg' →
    Inv reg' := by
  intro ds
  induction ds with
  | nil =>
    intro reg reg' hI h
    simp only [ActionRegistry.populateDefaults, Except.ok.injEq] at h
    exact h ▸ hI
  | cons d rest ih =>
    intro reg reg' hI h
    cases d with
    | single a =>
      rw [ActionRegistry.populateDefaults] at h
      cases hr : reg.register a none with
      | error e => rw [hr] at h; simp at h
      | ok reg1 =>
        rw [hr] at h
        simp only at h
        exact ih reg1 reg' (inv_register hI hr) h
    | group parent cs =>
      rw [ActionRegistry.populateDefaults] at h
      cases hr : reg.register parent none with
      | error e => rw [hr] at h; simp at h
      | ok reg1 =>
        rw [hr] at h
        simp only at h
        cases hr2 : ActionRegistry.registerChildList parent.action_id cs reg1 with
        | error e => rw [hr2] at h; simp at h
        | ok reg2 =>
          rw [hr2] at h
          simp only at h
          exact ih reg2 reg'
            (inv_registerChildList cs reg1 reg2 (inv_register hI hr) hr2) h

theorem inv_populate {reg reg' : ActionRegistry} (hI : Inv reg)
    (h : reg.populate = .ok reg') : Inv reg' := by
  rw [ActionRegistry.populate] at h
  by_cases hp : reg.populated
  · rw [if_pos hp] at h
    simp only [Except.ok.injEq] at h
    exact h ▸ hI
  · rw [if_neg hp] at h
    exact inv_populateDefaults _ _ _ (inv_setPopulated hI) h

theorem inv_of_empty {reg : ActionRegistry} (h1 : reg.items = [])
    (h2 : reg.children = []) (h3 : reg.parents = []) : Inv reg := by
  refine ⟨?_, ?_, ?_, ?_, ?_, ?_, ?_, ?_, ?_, ?_⟩ <;>
    simp [idsOf, ckOf, pkOf, h1, h2, h3]

/-- Unregistering, in order, (the resolved actions of) every current
root empties the registry: nothing remains in the mapping or either
index. -/
theorem unregisterRoots_effect :
    ∀ (roots : List (Option Action)) (s s' : ActionRegistry),
    Inv s →
    ckOf s = (roots.filterMap id).map Action.action_id →
    ActionRegistry.unregisterRoots roots s = .ok s' →
    Inv s' ∧ s'.items = [] ∧ s'.children = [] ∧ s'.parents = [] ∧
    s'.populated = s.populated ∧ s'.defaults = s.defaults := by
  intro roots
  induction roots with
  | nil =>
    intro s s' hI hck h
    simp only [ActionRegistry.unregisterRoots, Except.ok.injEq] at h
    subst h
    simp only [List.filterMap_nil, List.map_nil] at hck
    have hch : s.children = [] := by
      have := hck
      rw [ckOf] at this
      exact List.map_eq_nil_iff.1 this
    have hpar : s.parents = [] := by
      rw [List.eq_nil_iff_forall_not_mem]
      intro e he
      rcases hI.childUp e he with ⟨f, hf, _, _⟩
      rw [hch] at hf
      simp at hf
    have hit : s.items = [] := by
      rw [List.eq_nil_iff_forall_not_mem]
      intro b hb
      rcases hI.rootOrChild b hb with hc | hc
      · rw [hck] at hc; simp at hc
      · rw [pkOf, hpar] at hc; simp at hc
    exact ⟨hI, hit, hch, hpar, rfl, rfl⟩
  | cons oa rest ih =>
    intro s s' hI hck h
    cases oa with
    | none => simp [ActionRegistry.unregisterRoots] at h
    | some a =>
      rw [ActionRegistry.unregisterRoots] at h
      cases hr : s.unregister a with
      | error e => rw [hr] at h; simp at h
      | ok s1 =>
        rw [hr] at h
        simp only at h
        simp only [List.filterMap_cons, id, List.map_cons] at hck
        have hack : a.action_id ∈ ckOf s := by rw [hck]; simp
        have hal : (alookup s.children a.action_id).isSome :=
          (alookup_isSome_iff _ _).2 hack
        rcases Option.isSome_iff_exists.1 hal with ⟨l, hl⟩
        obtain ⟨_, _, hch1, hpop1, hdef1⟩ := unregisterFuel_root_ok hI hl hr
        have hI1 : Inv s1 := inv_unregisterFuel hI hr
        have hnd := hI.ckNodup
        rw [hck] at hnd
        have hck1 : ckOf s1 = (rest.filterMap id).map Action.action_id := by
          have h1 : ∀ x ∈ (rest.filterMap id).map Action.action_id,
              (x != a.action_id) = true := by
            intro x hx
            have hxne : x ≠ a.action_id := fun hh =>
              (List.nodup_cons.1 hnd).1 (hh ▸ hx)
            simp [hxne]
          have hfil : (ckOf s).filter (fun x => x != a.action_id) =
              (rest.filterMap id).map Action.action_id := by
            rw [hck, List.filter_cons]
            simp [List.filter_eq_self.2 h1]
          rw [ckOf, hch1, aerase_keys]
          exact hfil
        obtain ⟨hI2, h1, h2, h3, h4, h5⟩ := ih s1 s' hI1 hck1 h
        exact ⟨hI2, h1, h2, h3, h4.trans hpop1, h5.trans hdef1⟩

/-- `reset` on a populated registry empties it and clears the flag; on
an unpopulated registry it does nothing.  It preserves the invariant. -/
theorem reset_ok_inv {reg reg' : ActionRegistry} (hI : Inv reg)
    (h : reg.reset = .ok reg') :
    Inv reg' ∧
    (reg.populated = true →
      reg'.items = [] ∧ reg'.children = [] ∧ reg'.parents = [] ∧
      reg'.populated = false) ∧
    (reg.populated = false → reg' = reg) ∧
    reg'.defaults = reg.defaults := by
  rw [ActionRegistry.reset] at h
  by_cases hp : reg.populated
  · rw [if_pos hp] at h
    have hroots : reg.get_root_actions =
        .ok (reg, reg.children.map (fun e => reg.get_action e.1)) := by
      rw [ActionRegistry.get_root_actions, ActionRegistry.populate, if_pos hp]
    rw [hroots] at h
    simp only at h
    have hckrel : ckOf reg =
        (((reg.children.map (fun e => reg.get_action e.1)).filterMap id).map
          Action.action_id) := by
      have : ∀ ch : List (String × List String),
          (∀ e ∈ ch, e.1 ∈ ckOf reg) →
          ((ch.map (fun e => reg.get_action e.1)).filterMap id).map
            Action.action_id = ch.map Prod.fst := by
        intro ch
        induction ch with
        | nil => intro _; simp
        | cons e t iht =>
          intro hmem
          have he : e.1 ∈ ckOf reg := hmem e (List.mem_cons_self _ _)
          have hsome : (reg.get_action e.1).isSome :=
            (findAction_isSome_iff _ _).2 (hI.ckReg _ he)
          rcases Option.isSome_iff_exists.1 hsome with ⟨b, hb⟩
          have hbid : b.action_id = e.1 := (findAction_some hb).2
          have iht' := iht (fun f hf => hmem f (List.mem_cons_of_mem _ hf))
          simp only [List.map_cons, hb, List.filterMap_cons, id_eq,
            List.map_cons]
          rw [iht', hbid]
      rw [this reg.children (fun e he => List.mem_map.2 ⟨e, he, rfl⟩)]
      rfl
    cases hrun : ActionRegistry.unregisterRoots
        (reg.children.map (fun e => reg.get_action e.1)) reg with
    | error e => rw [hrun] at h; simp at h
    | ok s2 =>
      rw [hrun] at h
      simp only [Except.ok.injEq] at h
      obtain ⟨hI2, h1, h2, h3, h4, h5⟩ :=
        unregisterRoots_effect _ reg s2 hI hckrel hrun
      have hbr : s2.baseReset = { s2 with items := [], populated := false } := by
        rw [ActionRegistry.baseReset, if_pos (h4.trans hp)]
      subst h
      rw [hbr]
      refine ⟨?_, ?_, ?_, h5⟩
      · exact inv_of_empty rfl h2 h3
      · intro _
        exact ⟨rfl, h2, h3, rfl⟩
      · intro hf
        rw [hp] at hf
        cases hf
  · rw [if_neg hp] at h
    simp only [Except.ok.injEq] at h
    have hbr : reg.baseReset = reg := by
      rw [ActionRegistry.baseReset, if_neg hp]
    rw [hbr] at h
    subst h
    refine ⟨hI, ?_, fun _ => rfl, rfl⟩
    intro hf
    exact absurd hf hp


/-!  Helper facts for the claim witnesses and statements. -/

theorem menuReg2_inv : Inv menuReg2 :=
  ⟨by decide, by decide, by decide, by decide, by decide, by decide,
   by decide, by decide, by decide, by decide⟩

theorem opsRoots_subset {ops : List (Action × Option String)} :
    ∀ r ∈ opsRoots ops, r ∈ ops.map Prod.fst := by
  intro r hr
  rcases List.mem_filterMap.1 hr with ⟨op, hop, hf⟩
  by_cases h : pyTruthy op.2
  · simp [h] at hf
  · simp only [h, Bool.false_eq_true, if_false, Option.some.injEq] at hf
    exact hf ▸ List.mem_map.2 ⟨op, hop, rfl⟩

theorem opsChildrenOf_subset {pid : String}
    {ops : List (Action × Option String)} :
    ∀ r ∈ opsChildrenOf pid ops, r ∈ ops.map Prod.fst := by
  intro r hr
  rcases List.mem_filterMap.1 hr with ⟨op, hop, hf⟩
  by_cases h : (pyTruthy op.2 && (op.2.getD "" == pid)) = true
  · simp only [opsChildrenOf, h, if_true, Option.some.injEq] at hf
    exact hf ▸ List.mem_map.2 ⟨op, hop, rfl⟩
  · simp [h] at hf

theorem populate_no_defaults {reg : ActionRegistry}
    (h1 : reg.populated = false) (h2 : reg.defaults = []) :
    reg.populate = .ok { reg with populated := true } := by
  rw [ActionRegistry.populate, if_neg (by simp [h1]), h2]
  rfl

theorem renderChildLoop_spec (f : Action → Except PyExn String) :
    ∀ (menu : List Action) (acc : List String),
    renderChildLoop f menu acc =
      acc ++ menu.filterMap (fun c => (f c).toOption) := by
  intro menu
  induction menu with
  | nil => intro acc; simp [renderChildLoop]
  | cons c rest ih =>
    intro acc
    rw [renderChildLoop]
    cases hfc : f c with
    | ok s =>
      simp only [ih, List.filterMap_cons, hfc, Except.toOption]
      simp
    | error e =>
      simp only [ih, List.filterMap_cons, hfc, Except.toOption]

/-!  The claims. -/

/-- C7: for every action behaviour and render context, `render` leaves
the context stack exactly as it was before the call on every exit path:
when `should_render` returns false it returns empty content without
touching the context; when `should_render`, `get_render_context` (and
so any user-overridden getter invoked inside it) or the template engine
raises, every key pushed for rendering has been popped again — the
context is never left polluted. -/
theorem C7_render_scoped
    (tmpl : String → TemplateContext → Except PyExn String)
    (a : ActionBehavior) (ctx : TemplateContext) :
    (BaseAction.render tmpl a ctx).1 = ctx ∧
    (a.should_render ctx = .ok false →
      BaseAction.render tmpl a ctx = (ctx, .ok "")) := by
  constructor
  · rw [BaseAction.render]
    cases a.should_render ctx with
    | error e => rfl
    | ok b =>
      cases b with
      | false => rfl
      | true =>
        simp only
        cases a.get_render_context (ctxPush ctx) with
        | error e => rfl
        | ok rc =>
          simp only
          cases tmpl a.template_name
              (ctxSet (ctxPush ctx) a.context_key
                (RVal.dict (rc.map (fun e => RentryT.mk e.1 e.2)))) with
          | error e => rfl
          | ok s => rfl
  · intro h
    rw [BaseAction.render, h]

theorem C7_witness :
    (BaseAction.render tmpl0 poorBehavior ctx0).1 = ctx0 ∧
    BaseAction.render tmpl0 neverBehavior ctx0 = (ctx0, .ok "") :=
  ⟨(C7_render_scoped tmpl0 poorBehavior ctx0).1,
   (C7_render_scoped tmpl0 neverBehavior ctx0).2 rfl⟩

/-- C8: the child render pipeline renders each child independently: the
result is the concatenation of the markup of exactly the children whose
render succeeded, and a child whose render raises (the exception is
caught and logged) does not suppress the rendering of its siblings. -/
theorem C8_child_isolation
    (render_action : Action → Except PyExn String) (menu : List Action) :
    render_child_actions render_action menu =
      String.join (menu.filterMap (fun c => (render_action c).toOption)) ∧
    (∀ (pre post : List Action) (c : Action) (e : PyExn),
      render_action c = .error e →
      render_child_actions render_action (pre ++ c :: post) =
        render_child_actions render_action (pre ++ post)) := by
  constructor
  · rw [render_child_actions, renderChildLoop_spec]
    simp
  · intro pre post c e hc
    rw [render_child_actions, render_child_actions,
      renderChildLoop_spec, renderChildLoop_spec]
    simp [List.filterMap_append, List.filterMap_cons, hc, Except.toOption]

theorem C8_witness :
    render_child_actions sampleRenderer [mAct, aAct, bAct] =
      String.join ([mAct, aAct, bAct].filterMap
        (fun c => (sampleRenderer c).toOption)) ∧
    render_child_actions sampleRenderer ([mAct] ++ aAct :: [bAct]) =
      render_child_actions sampleRenderer ([mAct] ++ [bAct]) :=
  ⟨(C8_child_isolation sampleRenderer [mAct, aAct, bAct]).1,
   (C8_child_isolation sampleRenderer [mAct, aAct, bAct]).2
     [mAct] [bAct] aAct { message := "broken action" } rfl⟩

/-- C10: registering with `parent_id=''` (the empty string) behaves
exactly like registering with `parent_id` omitted: the empty string is
never looked up as a parent, no `NotRegistered` error is raised, and on
success the action becomes a new root with a fresh empty child list. -/
theorem C10_empty_parent (reg : ActionRegistry) (a : Action) :
    reg.register a (some "") = reg.register a none ∧
    (∀ reg', reg.register a (some "") = .ok reg' → reg' = rootAdded reg a) := by
  constructor
  · rw [ActionRegistry.register, ActionRegistry.register]
    simp [pyTruthy]
  · intro reg' h
    rcases register_ok_inv h with ⟨_, hcase⟩
    rcases hcase with ⟨_, rfl⟩ | ⟨pp, hpp, htr, _, _, _⟩
    · rfl
    · have hpe : pp = "" := (Option.some.inj hpp).symm
      rw [hpe] at htr
      simp [pyTruthy] at htr

theorem C10_witness :
    ActionRegistry.initial.register aAct (some "") =
      ActionRegistry.initial.register aAct none ∧
    rootAdded ActionRegistry.initial aAct = rootAdded ActionRegistry.initial aAct :=
  ⟨(C10_empty_parent ActionRegistry.initial aAct).1,
   (C10_empty_parent ActionRegistry.initial aAct).2
     (rootAdded ActionRegistry.initial aAct) rfl⟩

/-- C4 (counterexample): the claim "after calling reset(),
get_root_actions() returns empty" is false — `get_root_actions` itself
triggers re-population, so after `reset()` on the close-menu registry it
returns the restored `close` root, not the empty list. -/
theorem C4_counterexample :
    ActionRegistry.populate closeMenuRegistry = .ok closePopulated ∧
    ActionRegistry.reset closePopulated = .ok closeReset ∧
    ActionRegistry.get_root_actions closeReset =
      .ok (closePopulated, [some closeAction]) ∧
    [some closeAction] ≠ ([] : List (Option Action)) :=
  ⟨rfl, rfl, rfl, by decide⟩

/-- C4 (amended): for the registry whose defaults are the menu `close`
with children `submit`, `discard`, `delete`: after `reset()` the
registry state is empty (no actions, empty indexes, populated flag
cleared); a subsequent `populate()` restores the original structure, and
`get_root_actions()` / `get_child_actions('close')` — which themselves
trigger re-population — then return the same roots with the same
children in the same order as before the reset. -/
theorem C4_reset_scenario :
    ActionRegistry.populate closeMenuRegistry = .ok closePopulated ∧
    ActionRegistry.reset closePopulated = .ok closeReset ∧
    closeReset.items = [] ∧ closeReset.children = [] ∧
    closeReset.parents = [] ∧ closeReset.populated = false ∧
    ActionRegistry.populate closeReset = .ok closePopulated ∧
    ActionRegistry.get_root_actions closeReset =
      .ok (closePopulated, [some closeAction]) ∧
    ActionRegistry.get_child_actions closePopulated "close" =
      .ok (closePopulated,
        [some submitAction, some discardAction, some deleteAction]) :=
  ⟨rfl, rfl, rfl, rfl, rfl, rfl, rfl, rfl, rfl⟩

/-- C9 (counterexample): the render-context mapping the menu produces
has no `children` key — the child list is stored under the key
`child_actions` (base.py line 194). -/
theorem C9_counterexample :
    BaseMenuAction.get_render_context closePopulated closeAction ctx0 =
      .ok (closePopulated, closeMenuRenderContext) ∧
    alookup closeMenuRenderContext "children" = none ∧
    alookup closeMenuRenderContext "child_actions" =
      some (RVal.actionList
        [some submitAction, some discardAction, some deleteAction]) :=
  ⟨rfl, rfl, rfl⟩

/-- C9 (amended): for every menu action and render context, the mapping
produced by the menu's `get_render_context` contains, in addition to the
fixed keys `id`, `label`, `url` and `hidden`, a `child_actions` entry
listing exactly the child actions resolved live from the registry's
`get_child_actions` at render time (never cached). -/
theorem C9_menu_render_context (reg reg1 : ActionRegistry) (a : Action)
    (ctx : TemplateContext) (kids : List (Option Action))
    (h : reg.get_child_actions a.action_id = .ok (reg1, kids)) :
    ∃ m : List Rentry,
      BaseMenuAction.get_render_context reg a ctx = .ok (reg1, m) ∧
      alookup m "id" = some (RVal.str a.action_id) ∧
      alookup m "label" = some (RVal.str (BaseAction.get_label a ctx)) ∧
      alookup m "url" = some (RVal.str (BaseAction.get_url a ctx)) ∧
      alookup m "hidden" = some (RVal.bool (BaseAction.get_hidden a ctx)) ∧
      alookup m "child_actions" = some (RVal.actionList kids) := by
  refine ⟨BaseAction.get_render_context a ctx ++
    [("child_actions", RVal.actionList kids)], ?_, ?_, ?_, ?_, ?_, ?_⟩
  · rw [BaseMenuAction.get_render_context, BaseMenuAction.child_actions, h]
  · rfl
  · rfl
  · rfl
  · rfl
  · rfl

theorem C9_witness :
    ∃ m : List Rentry,
      BaseMenuAction.get_render_context closePopulated closeAction ctx0 =
        .ok (closePopulated, m) ∧
      alookup m "id" = some (RVal.str closeAction.action_id) ∧
      alookup m "label" =
        some (RVal.str (BaseAction.get_label closeAction ctx0)) ∧
      alookup m "url" = some (RVal.str (BaseAction.get_url closeAction ctx0)) ∧
      alookup m "hidden" =
        some (RVal.bool (BaseAction.get_hidden closeAction ctx0)) ∧
      alookup m "child_actions" = some (RVal.actionList
        [some submitAction, some discardAction, some deleteAction]) :=
  C9_menu_render_context closePopulated closePopulated closeAction ctx0
    [some submitAction, some discardAction, some deleteAction] rfl

/-- C1 (counterexample): with `p = ''`, a parent id that names no
registered action, `register` does not fail with `NotRegistered` — the
empty string is falsy, so the action is silently registered as a new
root. -/
theorem C1_counterexample :
    ActionRegistry.initial.get_action "" = none ∧
    ActionRegistry.initial.register aAct (some "") =
      .ok (rootAdded ActionRegistry.initial aAct) :=
  ⟨rfl, rfl⟩

/-- C1 (amended): for every well-formed registry and every NON-EMPTY
parent id `p`: if `p` names an action registered as a child the call
fails with `DepthLimitExceeded`; if `p` names no registered action it
fails with `NotRegistered`, a `KeyError`; and registration under a
parent succeeds only when `p` names a registered root action. -/
theorem C1_parent_checks (reg : ActionRegistry) (a : Action) (p : String)
    (hI : Inv reg) (hp : p ≠ "") :
    ((∃ q, (p, q) ∈ reg.parents) →
      reg.register a (some p) =
        .error (.depthLimitExceeded a.action_id, reg)) ∧
    ((∀ b ∈ reg.items, b.action_id ≠ p) →
      reg.register a (some p) = .error (.notRegistered p, reg) ∧
      (RegistryError.notRegistered p).pyClass = PyExnClass.keyError) ∧
    (∀ reg', reg.register a (some p) = .ok reg' →
      (∃ b ∈ reg.items, b.action_id = p) ∧ p ∈ ckOf reg) := by
  have htr : pyTruthy (some p) = true := by simp [pyTruthy, hp]
  refine ⟨?_, ?_, ?_⟩
  · rintro ⟨q, hq⟩
    have hppk : p ∈ pkOf reg := List.mem_map.2 ⟨_, hq, rfl⟩
    have hpreg : (reg.get_action p).isSome :=
      (findAction_isSome_iff _ _).2 (hI.pkReg p hppk)
    have hpck : alookup reg.children p = none :=
      (alookup_eq_none_iff _ _).2 (fun hck => hI.notBoth p hck hppk)
    exact register_parent_is_child htr hpreg hpck
  · intro hnone
    have hmiss : reg.get_action p = none :=
      (findAction_eq_none_iff _ _).2 hnone
    exact ⟨register_parent_missing htr hmiss, rfl⟩
  · intro reg' h
    rcases register_ok_inv h with ⟨_, hcase⟩
    rcases hcase with ⟨hfal, _⟩ | ⟨pp, hpp, _, hpreg, hpck, _⟩
    · rw [htr] at hfal
      cases hfal
    · have hpe : pp = p := (Option.some.inj hpp).symm
      subst hpe
      rcases Option.isSome_iff_exists.1 hpreg with ⟨b, hb⟩
      obtain ⟨hbmem, hbid⟩ := findAction_some hb
      exact ⟨⟨b, hbmem, hbid⟩, (alookup_isSome_iff _ _).1 hpck⟩

theorem C1_witness :
    menuReg2.register xAct (some "a") =
      .error (.depthLimitExceeded "x", menuReg2) ∧
    menuReg2.register xAct (some "zzz") =
      .error (.notRegistered "zzz", menuReg2) ∧
    (RegistryError.notRegistered "zzz").pyClass = PyExnClass.keyError := by
  have h1 := C1_parent_checks menuReg2 xAct "a" menuReg2_inv (by decide)
  have h2 := C1_parent_checks menuReg2 xAct "zzz" menuReg2_inv (by decide)
  exact ⟨h1.1 ⟨"m", by decide⟩, (h2.2.1 (by decide)).1, (h2.2.1 (by decide)).2⟩

/-- C2 (counterexample): with an already-registered id `x` and an
INVALID `parent_id`, the call fails with the parent-lookup error
(`NotRegistered`), not with `AlreadyRegistered` — the parent checks run
first. -/
theorem C2_counterexample :
    xOnlyReg.get_action "x" = some xAct ∧
    dupXAct.action_id = "x" ∧
    xOnlyReg.register dupXAct (some "zzz") =
      .error (.notRegistered "zzz", xOnlyReg) ∧
    (RegistryError.notRegistered "zzz").isAlreadyRegistered = false :=
  ⟨rfl, rfl, rfl, rfl⟩

/-- C2 (amended): when an action with id `x` is already registered, a
`register` call for another action whose id is `x` fails with
`AlreadyRegistered` whenever its `parent_id` precheck passes
(`parent_id` omitted, empty, or naming a registered root) and otherwise
fails with that precheck's error; in every case the failure is atomic —
the registry state after the failed call equals the state before it. -/
theorem C2_duplicate_atomic (reg : ActionRegistry) (x : String)
    (b a : Action) (hb : reg.get_action x = some b) (ha : a.action_id = x) :
    reg.register a none = .error (.alreadyRegistered x, reg) ∧
    reg.register a (some "") = .error (.alreadyRegistered x, reg) ∧
    (∀ p : String, p ≠ "" → (reg.get_action p).isSome →
      (alookup reg.children p).isSome →
      reg.register a (some p) = .error (.alreadyRegistered x, reg)) ∧
    (∀ p : Option String, ∃ e, reg.register a p = .error (e, reg)) := by
  have hdup : (reg.get_action a.action_id).isSome := by
    rw [ha, hb]; rfl
  refine ⟨?_, ?_, ?_, ?_⟩
  · have := register_dup (p := none) rfl hdup
    rw [ha] at this
    exact this
  · have := register_dup (p := some "") rfl hdup
    rw [ha] at this
    exact this
  · intro p hp hreg hck
    have htr : pyTruthy (some p) = true := by simp [pyTruthy, hp]
    have := register_parent_dup htr hreg hck hdup
    rw [ha] at this
    exact this
  · intro p
    by_cases htr : pyTruthy p = true
    · cases p with
      | none => simp [pyTruthy] at htr
      | some pp =>
        by_cases hreg : (reg.get_action pp).isSome
        · by_cases hck : (alookup reg.children pp).isSome
          · exact ⟨_, register_parent_dup htr hreg hck hdup⟩
          · exact ⟨_, register_parent_is_child htr hreg
              (Option.not_isSome_iff_eq_none.1 hck)⟩
        · exact ⟨_, register_parent_missing htr
            (Option.not_isSome_iff_eq_none.1 hreg)⟩
    · have htr' : pyTruthy p = false := by simpa using htr
      exact ⟨_, register_dup htr' hdup⟩

theorem C2_witness :
    xOnlyReg.register dupXAct none =
      .error (.alreadyRegistered "x", xOnlyReg) ∧
    xOnlyReg.register dupXAct (some "x") =
      .error (.alreadyRegistered "x", xOnlyReg) ∧
    (∃ e, xOnlyReg.register dupXAct (some "zzz") = .error (e, xOnlyReg)) := by
  have h := C2_duplicate_atomic xOnlyReg "x" xAct dupXAct rfl rfl
  exact ⟨h.1, h.2.2.1 "x" (by decide) (by decide) (by decide),
    h.2.2.2 (some "zzz")⟩

/-- C3: for every well-formed populated registry containing a root
action `M` whose registered children are exactly `A` and `B`,
`unregister(M)` removes `M` and, cascading, `A` and `B`: afterwards
`get_action` returns absent for both children, `get_child_actions('M')`
fails with `NotFound` (`PARENT_NOT_FOUND`, a `KeyError`), and no entry
for `M`, `A` or `B` remains in the id-to-action mapping or in either
index. -/
theorem C3_unregister_cascades (reg reg' : ActionRegistry) (m a b : Action)
    (hI : Inv reg) (hpopd : reg.populated = true)
    (hl : alookup reg.children m.action_id = some [a.action_id, b.action_id])
    (hun : reg.unregister m = .ok reg') :
    reg'.get_action a.action_id = none ∧
    reg'.get_action b.action_id = none ∧
    reg'.get_action m.action_id = none ∧
    reg'.get_child_actions m.action_id =
      .error (.parentNotFound m.action_id, reg') ∧
    m.action_id ∉ idsOf reg' ∧ a.action_id ∉ idsOf reg' ∧
    b.action_id ∉ idsOf reg' ∧
    m.action_id ∉ ckOf reg' ∧ a.action_id ∉ ckOf reg' ∧
    b.action_id ∉ ckOf reg' ∧
    m.action_id ∉ pkOf reg' ∧ a.action_id ∉ pkOf reg' ∧
    b.action_id ∉ pkOf reg' ∧
    (∀ f ∈ reg'.children, a.action_id ∉ f.2 ∧ b.action_id ∉ f.2) := by
  obtain ⟨hitems, hparents, hchildren, hpop, _⟩ :=
    unregisterFuel_root_ok hI hl hun
  have hml : (m.action_id, [a.action_id, b.action_id]) ∈ reg.children :=
    alookup_mem hl
  have hapar : (a.action_id, m.action_id) ∈ reg.parents :=
    hI.childDown _ hml _ (by simp)
  have hbpar : (b.action_id, m.action_id) ∈ reg.parents :=
    hI.childDown _ hml _ (by simp)
  have hids' : idsOf reg' = (idsOf reg).filter
      (fun x => decide (x ∉ m.action_id :: [a.action_id, b.action_id])) := by
    rw [idsOf, hitems]
    exact map_actionid_filter reg.items
      (fun x => decide (x ∉ m.action_id :: [a.action_id, b.action_id]))
  have hnotids : ∀ x, x ∈ m.action_id :: [a.action_id, b.action_id] →
      x ∉ idsOf reg' := by
    intro x hx hmem
    rw [hids'] at hmem
    obtain ⟨_, hdec⟩ := List.mem_filter.1 hmem
    exact (of_decide_eq_true hdec) hx
  have hmids : m.action_id ∉ idsOf reg' := hnotids _ (by simp)
  have haids : a.action_id ∉ idsOf reg' := hnotids _ (by simp)
  have hbids : b.action_id ∉ idsOf reg' := hnotids _ (by simp)
  have hck' : ckOf reg' = (ckOf reg).filter (fun x => x != m.action_id) := by
    rw [ckOf, hchildren]
    exact aerase_keys _ _
  have hack : a.action_id ∉ ckOf reg' := by
    rw [hck']
    intro hmem
    exact hI.notBoth _ (List.mem_filter.1 hmem).1
      (List.mem_map.2 ⟨_, hapar, rfl⟩)
  have hbck : b.action_id ∉ ckOf reg' := by
    rw [hck']
    intro hmem
    exact hI.notBoth _ (List.mem_filter.1 hmem).1
      (List.mem_map.2 ⟨_, hbpar, rfl⟩)
  have hmck : m.action_id ∉ ckOf reg' := by
    rw [hck']
    intro hmem
    have := (List.mem_filter.1 hmem).2
    simp at this
  have hpk' : pkOf reg' = (pkOf reg).filter
      (fun x => decide (x ∉ [a.action_id, b.action_id])) := by
    rw [pkOf, hparents]
    exact map_fst_filter reg.parents
      (fun x => decide (x ∉ [a.action_id, b.action_id]))
  have hapk : a.action_id ∉ pkOf reg' := by
    rw [hpk']
    intro hmem
    exact (of_decide_eq_true (List.mem_filter.1 hmem).2) (by simp)
  have hbpk : b.action_id ∉ pkOf reg' := by
    rw [hpk']
    intro hmem
    exact (of_decide_eq_true (List.mem_filter.1 hmem).2) (by simp)
  have hmpk : m.action_id ∉ pkOf reg' := by
    rw [hpk']
    intro hmem
    have hmpkreg := (List.mem_filter.1 hmem).1
    have hmckreg : m.action_id ∈ ckOf reg :=
      (alookup_isSome_iff _ _).1 (by simp [hl])
    exact hI.notBoth _ hmckreg hmpkreg
  have hga : reg'.get_action a.action_id = none :=
    (get_action_eq_none_iff _ _).2 haids
  have hgb : reg'.get_action b.action_id = none :=
    (get_action_eq_none_iff _ _).2 hbids
  have hgm : reg'.get_action m.action_id = none :=
    (get_action_eq_none_iff _ _).2 hmids
  refine ⟨hga, hgb, hgm, ?_, hmids, haids, hbids, hmck, hack, hbck,
    hmpk, hapk, hbpk, ?_⟩
  · rw [ActionRegistry.get_child_actions, ActionRegistry.populate,
      if_pos (hpop.trans hpopd)]
    simp only
    rw [hgm]
    rfl
  · intro f hf
    rw [hchildren] at hf
    obtain ⟨hfmem, hfne⟩ := List.mem_filter.1 hf
    have hfne' : f.1 ≠ m.action_id := by simpa using hfne
    constructor
    · intro hmem
      exact hfne' (alist_functional hI.pkNodup
        (hI.childDown f hfmem _ hmem) hapar)
    · intro hmem
      exact hfne' (alist_functional hI.pkNodup
        (hI.childDown f hfmem _ hmem) hbpar)

theorem C3_witness :
    ({ populated := true } : ActionRegistry).get_action "a" = none ∧
    ({ populated := true } : ActionRegistry).get_action "b" = none ∧
    ({ populated := true } : ActionRegistry).get_action "m" = none ∧
    ({ populated := true } : ActionRegistry).get_child_actions "m" =
      .error (.parentNotFound "m", { populated := true }) := by
  have h := C3_unregister_cascades menuReg2 { populated := true }
    mAct aAct bAct menuReg2_inv rfl rfl rfl
  exact ⟨h.1, h.2.1, h.2.2.1, h.2.2.2.1⟩

/-- Evaluation of `get_root_actions` given the populate step's result. -/
theorem get_root_actions_eval {reg R : ActionRegistry}
    (hpopu : reg.populate = .ok R) :
    reg.get_root_actions =
      .ok (R, R.children.map (fun e => R.get_action e.1)) := by
  rw [ActionRegistry.get_root_actions, hpopu]

/-- Evaluation of `get_child_actions` given the populate step's result
and the two lookups. -/
theorem get_child_actions_eval {reg R : ActionRegistry} {pid : String}
    {bb : Action} {l : List String}
    (hpopu : reg.populate = .ok R)
    (hget : R.get_action pid = some bb)
    (hlk : alookup R.children pid = some l) :
    reg.get_child_actions pid = .ok (R, l.map (fun c => R.get_action c)) := by
  rw [ActionRegistry.get_child_actions, hpopu]
  simp only
  rw [hget]
  simp only [Option.isNone_some, Bool.false_eq_true, if_false]
  rw [hlk]

/-- C5: for every sequence of successful `register` calls starting from
a fresh registry, `get_root_actions()` yields the root actions in the
order their root registrations occurred, and `get_child_actions(p)`
yields `p`'s children in the order they were registered under `p`. -/
theorem C5_registration_order (ops : List (Action × Option String))
    (reg' : ActionRegistry)
    (h : ActionRegistry.registerAll ops ActionRegistry.initial = .ok reg') :
    reg'.get_root_actions =
      .ok ({ reg' with populated := true }, (opsRoots ops).map some) ∧
    (∀ pid, pid ∈ ckOf reg' →
      reg'.get_child_actions pid =
        .ok ({ reg' with populated := true },
          (opsChildrenOf pid ops).map some)) := by
  have hIinit : Inv ActionRegistry.initial := inv_of_empty rfl rfl rfl
  obtain ⟨hI, hitems, hpop, hdef, hck, hch⟩ :=
    registerAll_effect ops ActionRegistry.initial reg' hIinit h
  have hpopu : reg'.populate = .ok { reg' with populated := true } :=
    populate_no_defaults hpop hdef
  have hfind : ∀ r, r ∈ ops.map Prod.fst →
      reg'.get_action r.action_id = some r := by
    intro r hr
    have hrmem : r ∈ reg'.items := by
      rw [hitems]
      exact List.mem_append.2 (Or.inr hr)
    exact findAction_mem_nodup hI.idsNodup hrmem
  have hckinit : ckOf ActionRegistry.initial = [] := rfl
  constructor
  · have hlist : ({ reg' with populated := true } :
        ActionRegistry).children.map
        (fun e => ({ reg' with populated := true } :
          ActionRegistry).get_action e.1) = (opsRoots ops).map some := by
      show reg'.children.map (fun e => reg'.get_action e.1) = _
      have h1 : reg'.children.map (fun e => reg'.get_action e.1) =
          (reg'.children.map Prod.fst).map (fun k => reg'.get_action k) := by
        rw [List.map_map]
        rfl
      rw [h1, hck, hckinit, List.nil_append, List.map_map]
      refine List.map_congr_left ?_
      intro r hr
      exact hfind r (opsRoots_subset r hr)
    rw [get_root_actions_eval hpopu, hlist]
  · intro pid hpid
    have hlk := hch pid
    rw [show alookup ActionRegistry.initial.children pid = none from rfl] at hlk
    simp only at hlk
    have hpidroots : pid ∈ (opsRoots ops).map Action.action_id := by
      have hpid' : pid ∈ reg'.children.map Prod.fst := hpid
      rw [hck, hckinit, List.nil_append] at hpid'
      exact hpid'
    rw [if_pos hpidroots] at hlk
    have hsome : (reg'.get_action pid).isSome :=
      (findAction_isSome_iff _ _).2 (hI.ckReg pid hpid)
    rcases Option.isSome_iff_exists.1 hsome with ⟨bb, hbb⟩
    have hget : ({ reg' with populated := true } :
        ActionRegistry).get_action pid = some bb := hbb
    have hlk' : alookup ({ reg' with populated := true } :
        ActionRegistry).children pid =
        some ((opsChildrenOf pid ops).map Action.action_id) := hlk
    rw [get_child_actions_eval hpopu hget hlk']
    have hlist2 : ((opsChildrenOf pid ops).map Action.action_id).map
        (fun c => ({ reg' with populated := true } :
          ActionRegistry).get_action c) = (opsChildrenOf pid ops).map some := by
      show ((opsChildrenOf pid ops).map Action.action_id).map
        (fun c => reg'.get_action c) = _
      rw [List.map_map]
      refine List.map_congr_left ?_
      intro r hr
      exact hfind r (opsChildrenOf_subset r hr)
    rw [hlist2]

theorem C5_witness :
    orderReg.get_root_actions =
      .ok ({ orderReg with populated := true }, [some mAct, some zAct]) ∧
    orderReg.get_child_actions "m" =
      .ok ({ orderReg with populated := true }, [some xAct, some yAct]) := by
  have h := C5_registration_order orderOps orderReg rfl
  exact ⟨h.1, h.2 "m" (by decide)⟩

/-- C6: the registry invariant — every registered `action_id` is a key
of the parent-to-children index (a root) or a key of the child-to-parent
index (a child) and never both, and every child-to-parent entry points
at a key of the parent-to-children index — holds for a fresh registry
and is preserved by every registry operation (`register`, `unregister`,
`populate`, `reset`). -/
theorem C6_index_invariant (reg : ActionRegistry) (hI : Inv reg) :
    Inv ActionRegistry.initial ∧
    (∀ b ∈ reg.items,
      (b.action_id ∈ ckOf reg ∨ b.action_id ∈ pkOf reg) ∧
      ¬(b.action_id ∈ ckOf reg ∧ b.action_id ∈ pkOf reg)) ∧
    (∀ e ∈ reg.parents, e.2 ∈ ckOf reg) ∧
    (∀ (a : Action) (p : Option String) (reg' : ActionRegistry),
      reg.register a p = .ok reg' → Inv reg') ∧
    (∀ (a : Action) (reg' : ActionRegistry),
      reg.unregister a = .ok reg' → Inv reg') ∧
    (∀ reg', reg.populate = .ok reg' → Inv reg') ∧
    (∀ reg', reg.reset = .ok reg' → Inv reg') := by
  refine ⟨inv_of_empty rfl rfl rfl, ?_, ?_, ?_, ?_, ?_, ?_⟩
  · intro b hb
    exact ⟨hI.rootOrChild b hb, fun hboth => hI.notBoth _ hboth.1 hboth.2⟩
  · intro e he
    rcases hI.childUp e he with ⟨f, hf, h1, _⟩
    exact h1 ▸ List.mem_map.2 ⟨f, hf, rfl⟩
  · exact fun a p reg' h => inv_register hI h
  · exact fun a reg' h => inv_unregister hI h
  · exact fun reg' h => inv_populate hI h
  · exact fun reg' h => (reset_ok_inv hI h).1

theorem C6_witness :
    ((mAct.action_id ∈ ckOf menuReg2 ∨ mAct.action_id ∈ pkOf menuReg2) ∧
      ¬(mAct.action_id ∈ ckOf menuReg2 ∧ mAct.action_id ∈ pkOf menuReg2)) ∧
    (("a", "m") ∈ menuReg2.parents → ("a", "m").2 ∈ ckOf menuReg2) ∧
    Inv (rootAdded menuReg2 xAct) ∧
    Inv ({ populated := true } : ActionRegistry) := by
  have h := C6_index_invariant menuReg2 menuReg2_inv
  refine ⟨h.2.1 mAct (by decide), fun hm => h.2.2.1 ("a", "m") hm, ?_, ?_⟩
  · exact h.2.2.2.1 xAct none (rootAdded menuReg2 xAct) rfl
  · exact h.2.2.2.2.1 mAct { populated := true } rfl

end RB
